import Mathlib

/-!
Shallow embedding of the multi-store synchronization and reconciliation
engine of the arxiv pipeline: the vector-store sync module
(src/pipeline/sync_summary_vectors.py), the PDF vector sync module
(src/pipeline/sync_qdrant.py) and the graph-store sync module
(src/graph/neo4j_sync.py).  Pure data transformations are Lean functions;
the MongoDB paper store, the tracking ledger (a MongoDB collection with a
unique index on paper_id) and the Qdrant collection are explicit state
values threaded through the functions.  External effects with no data
content (logging, wall-clock processed_date timestamps) are dropped;
external nondeterminism (the per-process builtin hash seed, the embedding
model, client errors while scrolling) is passed in as explicit parameters.
-/

namespace ArxivPipeline

/-- A paper document of the primary MongoDB `papers` collection, with the
fields the sync modules project out (id, title, summary, categories,
published; the graph sync additionally reads updated, arxiv_url, pdf_url
and authors, defaulting each to the empty value when absent). -/
structure Paper where
  id : String
  title : String
  summary : String
  published : String
  updated : String
  arxiv_url : String
  pdf_url : String
  authors : List String
  categories : List String
deriving DecidableEq

/-- src/pipeline/sync_summary_vectors.py line 457:
`point_id = int(hash(metadata["paper_id"]) % (10**18))`.
Python's builtin `hash` on strings is salted with a per-process seed
(PYTHONHASHSEED), so the hash function is not a fixed function of the
string: the embedding takes the process's string-hash function `h` as a
parameter.  Python's `%` with a positive modulus returns a value in
`[0, 10^18)`, which is `Int.emod`. -/
def point_id (h : String → Int) (paper_id : String) : Int :=
  (h paper_id).emod (10 ^ 18)

/-- src/pipeline/sync_qdrant.py line 261 (inside process_pdf):
`id=hash(f"{pdf_path}_{i}") % (2**63-1)`, again the per-process builtin
string hash, reduced modulo 2^63 - 1. -/
def pdf_chunk_point_id (h : String → Int) (pdf_path : String) (i : Nat) : Int :=
  (h (pdf_path ++ "_" ++ toString i)).emod (2 ^ 63 - 1)

/-- The payload stored with each Qdrant point by process_papers
(sync_summary_vectors.py lines 425-432). -/
structure Payload where
  paper_id : String
  title : String
  category : String
  published : String
  summary_length : Nat
  summary : String
deriving DecidableEq

/-- sync_summary_vectors.py line 422: the primary category is
`paper["categories"][0]` when the list is non-empty, else "unknown". -/
def primary_category : List String → String
  | [] => "unknown"
  | c :: _ => c

/-- A Qdrant point: id, vector, payload.  Vectors are opaque to every
claim, so the embedding models them as integer lists produced by an
abstract embedding function parameter. -/
structure QPoint where
  id : Int
  vector : List Int
  payload : Payload
deriving DecidableEq

/-- The one Qdrant collection the module talks to (QDRANT_COLLECTION):
its vector size, distance metric and stored points.  `Option` at use
sites records whether the collection exists. -/
structure QCollection where
  size : Nat
  distance : String
  points : List QPoint
deriving DecidableEq

/-- sync_summary_vectors.py line 25: VECTOR_SIZE = 384. -/
def VECTOR_SIZE : Nat := 384

/-- client.create_collection with the configured vectors_config
(sync_summary_vectors.py lines 143-151 and 321-329): a fresh, empty
collection of the given size and distance. -/
def create_collection (size : Nat) (distance : String) : QCollection :=
  { size := size, distance := distance, points := [] }

/-- reset_qdrant_collection (sync_summary_vectors.py lines 307-334): if
the collection exists it is deleted, then a fresh collection with
VECTOR_SIZE is created unconditionally.  The returned Bool is the
function's success flag (False only on a client exception, which is
external; the data-level behaviour modelled here always succeeds). -/
def reset_qdrant_collection (q : Option QCollection) : Bool × Option QCollection :=
  let afterDelete : Option QCollection := if q.isSome then none else q
  let _ := afterDelete
  (true, some (create_collection VECTOR_SIZE "Cosine"))

/-- One entry of the tracking collection (unique index on paper_id).
processed_date is a wall-clock timestamp and is dropped; qdrant_id and
published are present only when the writing code path sets them. -/
structure TrackingEntry where
  paper_id : String
  category : String
  summary_length : Nat
  qdrant_id : Option String
  published : Option String
deriving DecidableEq

/-- is_paper_processed (sync_summary_vectors.py lines 89-100): False when
tracking is disabled or the tracking collection is unavailable; otherwise
a find_one on paper_id, and additionally on category when the category
argument is truthy (`if category:`). -/
def is_paper_processed (trackingEnabled : Bool) (tracking : Option (List TrackingEntry))
    (pid : String) (category : Option String) : Bool :=
  if !trackingEnabled || tracking.isNone then false
  else
    match tracking with
    | none => false
    | some entries =>
        let catTruthy := match category with
          | some c => c != ""
          | none => false
        (entries.find? (fun e =>
          e.paper_id == pid &&
          (if catTruthy then some e.category == category else true))).isSome

/-- os.path.basename for forward-slash paths, as used by is_pdf_processed
(sync_qdrant.py line 86). -/
def basename (p : String) : String :=
  ((p.splitOn "/").getLast?).getD p

/-- is_pdf_processed (sync_qdrant.py lines 80-90): False when tracking is
disabled or the collection is unavailable; otherwise a find_one on
file_id (the basename of the path) and category.  Tracking records are
modelled by their (file_id, category) key. -/
def is_pdf_processed (trackingEnabled : Bool) (tracking : Option (List (String × String)))
    (file_path : String) (category : String) : Bool :=
  if !trackingEnabled || tracking.isNone then false
  else
    match tracking with
    | none => false
    | some entries =>
        let file_id := basename file_path
        (entries.find? (fun e => e.1 == file_id && e.2 == category)).isSome

/-- One result of a client.scroll call during reconciliation
(sync_summary_vectors.py lines 162-184): either a page of payload
paper_id fields (none when a point's payload lacks the field) or a
client error raised by the scroll call. -/
abbrev ScrollPage := Except Unit (List (Option String))

/-- The scroll loop of sync_qdrant_with_tracking (lines 157-187): pages
are read until the first empty page, the end of the offsets, or a client
error; the error is caught (`Continue with what we have`) so the ids
gathered before it are kept.  Returns the gathered paper ids in order and
whether an error occurred.  A field value is kept only when it is truthy
(`if paper_id:`). -/
def scroll_ids : List ScrollPage → List String × Bool
  | [] => ([], false)
  | Except.error _ :: _ => ([], true)
  | Except.ok page :: rest =>
      if page.isEmpty then ([], false)
      else
        let ids := (page.filterMap id).filter (fun s => s != "")
        let r := scroll_ids rest
        (ids ++ r.1, r.2)

/-- The tracking document built for an id found in Qdrant but not in
tracking (sync_qdrant_with_tracking lines 211-253): the paper is looked
up in the primary store; when found, its first category (or "unknown"
when the list is empty), its summary length and its published date are
recorded; when the primary record is missing the entry has the sentinel
category "unknown" and summary_length 0. -/
def backfill_entry (papers : List Paper) (pid : String) : TrackingEntry :=
  match papers.find? (fun p => p.id == pid) with
  | some p =>
      { paper_id := pid, category := primary_category p.categories,
        summary_length := p.summary.length, qdrant_id := none,
        published := some p.published }
  | none =>
      { paper_id := pid, category := "unknown", summary_length := 0,
        qdrant_id := none, published := none }

/-- The drift-correction step of sync_qdrant_with_tracking (lines
191-260): when the set of ids read from Qdrant is non-empty, tracking
entries whose id is not in it are deleted and ids not yet tracked are
inserted via backfill_entry; when the set is empty the tracking
collection is left unchanged (`maintaining tracking collection
unchanged`). -/
def reconcile_tracking (tracking : List TrackingEntry) (qdrant_ids : List String)
    (papers : List Paper) : List TrackingEntry :=
  if qdrant_ids.isEmpty then tracking
  else
    let tracked := tracking.map (fun e => e.paper_id)
    let keep := tracking.filter (fun e => qdrant_ids.contains e.paper_id)
    let to_add := qdrant_ids.filter (fun pid => !(tracked.contains pid))
    keep ++ to_add.map (backfill_entry papers)

/-- sync_qdrant_with_tracking (sync_summary_vectors.py lines 124-266).
Inputs: whether tracking is enabled, the Qdrant collection (none when it
does not exist), the scroll results observed while enumerating it, the
tracking collection and the primary paper store.  Output: the Qdrant
collection (created fresh when absent, lines 140-153), the tracking
collection after reconciliation, and the returned qdrant_paper_ids set
(as a duplicate-free list).  An exception raised outside the scroll loop
is caught at line 264 and leaves the tracking collection unchanged; that
path carries no data and is not modelled. -/
def sync_qdrant_with_tracking (trackingEnabled : Bool) (q : Option QCollection)
    (pages : List ScrollPage) (tracking : List TrackingEntry) (papers : List Paper) :
    Option QCollection × List TrackingEntry × List String :=
  if !trackingEnabled then (q, tracking, [])
  else
    match q with
    | none => (some (create_collection VECTOR_SIZE "Cosine"), tracking, [])
    | some c =>
        let r := scroll_ids pages
        let qdrant_ids := r.1.dedup
        (some c, reconcile_tracking tracking qdrant_ids papers, qdrant_ids)

/-- The configuration fields of sync_summary_vectors.py read from
config/default.yaml (lines 21-53 and the embedding batch size at line
401). -/
structure SummariesConfig where
  enabled : Bool
  process_categories : List String
  papers_per_category : Nat
  date_filter_enabled : Bool
  start_date : Option String
  end_date : Option String
  sort_by_date : Bool
  tracking_enabled : Bool
  sync_with_qdrant : Bool
  batch_size : Nat
deriving DecidableEq

/-- create_query_filter (sync_summary_vectors.py lines 268-289).  The
summary clause is written `{"$exists": True, "$ne": None, "$ne": ""}`;
the duplicate "$ne" key makes the effective clause `summary exists and
summary != ""`.  The categories clause is a Mongo `$in` on an array
field: it matches when any element of the paper's categories is in the
configured list.  The date clauses are `$gte`/`$lte` string comparisons
on published. -/
def matches_base_filter (cfg : SummariesConfig) (p : Paper) : Bool :=
  (p.summary != "") &&
  (cfg.process_categories.isEmpty ||
    p.categories.any (fun c => cfg.process_categories.contains c)) &&
  (!cfg.date_filter_enabled ||
    ((match cfg.start_date with
      | some s => decide (s ≤ p.published)
      | none => true) &&
     (match cfg.end_date with
      | some e => decide (p.published ≤ e)
      | none => true)))

/-- The query actually issued by process_papers: the base filter plus, when
tracking is enabled and the tracked id set is non-empty, the exclusion
`{"id": {"$nin": existing_paper_ids}}` added at lines 354-357. -/
def matches_query (cfg : SummariesConfig) (tracked : List String) (p : Paper) : Bool :=
  matches_base_filter cfg p &&
  (if !tracked.isEmpty && cfg.tracking_enabled then !(tracked.contains p.id) else true)

/-- Step 1 of process_papers (lines 341-347): the paper ids read from the
tracking collection, the empty set when tracking is disabled. -/
def tracked_ids (cfg : SummariesConfig) (tracking : List TrackingEntry) : List String :=
  if cfg.tracking_enabled then tracking.map (fun e => e.paper_id) else []

/-- The result set of the find issued by process_papers (line 376):
papers of the primary store matching the query filter. -/
def selected_papers (cfg : SummariesConfig) (tracking : List TrackingEntry)
    (store : List Paper) : List Paper :=
  store.filter (matches_query cfg (tracked_ids cfg tracking))

/-- Mongo's descending sort on published (line 372,
`sort_order = [("published", -1)]`), as a stable insertion sort: a paper
is placed before the first paper whose published date is strictly
smaller (order among equal dates is unspecified by Mongo; the model picks
the stable one). -/
def insert_desc (p : Paper) : List Paper → List Paper
  | [] => [p]
  | q :: qs => if decide (p.published < q.published) then q :: insert_desc p qs
               else p :: q :: qs

/-- Sorted view of the find result when sort_by_date is set. -/
def sort_by_published_desc (l : List Paper) : List Paper :=
  l.foldr insert_desc []

/-- Structural worker for to_batches: the fuel argument starts at the
list length, which suffices because each step drops at least one element
(batch_size is positive). -/
def to_batches_fuel (n : Nat) : Nat → List Paper → List (List Paper)
  | _, [] => []
  | 0, l => [l]
  | fuel + 1, x :: xs => (x :: xs).take n :: to_batches_fuel n fuel ((x :: xs).drop n)

/-- The batch loop bounds of process_papers (line 405,
`range(0, len(papers), batch_size)`): the list cut into chunks of
batch_size.  batch_size comes from config embedding.batch_size and is
positive (Python's range would raise on step 0). -/
def to_batches (n : Nat) (l : List Paper) : List (List Paper) :=
  to_batches_fuel n l.length l

/-- The payload prepared for one paper (lines 425-432). -/
def payload_of (p : Paper) : Payload :=
  { paper_id := p.id, title := p.title, category := primary_category p.categories,
    published := p.published, summary_length := p.summary.length, summary := p.summary }

/-- The point built for one paper (lines 455-471): deterministic-per-process
id from point_id, the embedding of the summary, and the payload. -/
def qpoint_of (h : String → Int) (embed : String → List Int) (p : Paper) : QPoint :=
  { id := point_id h p.id, vector := embed p.summary, payload := payload_of p }

/-- Qdrant upsert of one point: a point with the same id is overwritten,
otherwise the point is added. -/
def upsert_point (pts : List QPoint) (pt : QPoint) : List QPoint :=
  if pts.any (fun q => q.id == pt.id) then
    pts.map (fun q => if q.id == pt.id then pt else q)
  else pts ++ [pt]

/-- The bulk upsert of one batch (lines 463-472). -/
def upsert_points (c : QCollection) (new : List QPoint) : QCollection :=
  { c with points := new.foldl upsert_point c.points }

/-- One UpdateOne document queued for the tracking bulk_write by the
batch loop (lines 478-493): a $set with paper_id, category,
summary_length and qdrant_id (processed_date dropped as wall-clock). -/
structure TrackOp where
  paper_id : String
  category : String
  summary_length : Nat
  qdrant_id : Option String
deriving DecidableEq

/-- Applying one UpdateOne($set, upsert=True) against the unique
paper_id index: fields of an existing entry are overwritten (published,
not in the document, is preserved), otherwise a new entry is inserted. -/
def apply_track_op (tracking : List TrackingEntry) (op : TrackOp) : List TrackingEntry :=
  if tracking.any (fun e => e.paper_id == op.paper_id) then
    tracking.map (fun e =>
      if e.paper_id == op.paper_id then
        { e with category := op.category, summary_length := op.summary_length,
                 qdrant_id := op.qdrant_id }
      else e)
  else
    tracking ++ [{ paper_id := op.paper_id, category := op.category,
                   summary_length := op.summary_length, qdrant_id := op.qdrant_id,
                   published := none }]

/-- What a later scroll over the collection observes: one page holding
every stored point's payload paper_id (used for the optional
sync-after-processing call at lines 513-515). -/
def enumeration_pages (q : Option QCollection) : List ScrollPage :=
  match q with
  | none => []
  | some c => [Except.ok (c.points.map (fun pt => some pt.payload.paper_id))]

/-- The body of the batch loop of process_papers (lines 405-501) for one
batch, on the success path: papers with empty summaries are skipped
(lines 417-419), points are built and bulk-upserted, tracking UpdateOne
documents are queued, and the processed count grows by the number of
documents. -/
def process_batch (h : String → Int) (embed : String → List Int)
    (st : Nat × QCollection × List TrackOp) (batch : List Paper) :
    Nat × QCollection × List TrackOp :=
  let docs := batch.filter (fun p => p.summary != "")
  if docs.isEmpty then st
  else
    let pts := docs.map (qpoint_of h embed)
    let c := upsert_points st.2.1 pts
    let ops := docs.map (fun p =>
      ({ paper_id := p.id, category := primary_category p.categories,
         summary_length := p.summary.length,
         qdrant_id := some (toString (point_id h p.id)) } : TrackOp))
    (st.1 + docs.length, c, st.2.2 ++ ops)

/-- The outcome of one process_papers run: the returned processed count,
the Qdrant collection and the tracking collection. -/
structure RunResult where
  processed : Nat
  qdrant : Option QCollection
  tracking : List TrackingEntry
deriving DecidableEq

/-- process_papers (sync_summary_vectors.py lines 291-518), success path
of the store clients.  In order: the early return when paper summaries
are disabled; reset_qdrant_collection, which deletes any existing
collection and creates a fresh one (lines 306-339); the tracked-id read
(Step 1); the filtered find with the tracked ids excluded (Steps 2-4);
the sort and papers_per_category limit; the batch loop; the tracking
bulk_write (Step 8, executed only when tracking is enabled and
operations were queued); and the optional sync_qdrant_with_tracking call
when sync_with_qdrant is set and papers were processed. -/
def process_papers (cfg : SummariesConfig) (h : String → Int) (embed : String → List Int)
    (store : List Paper) (q : Option QCollection) (tracking : List TrackingEntry) :
    RunResult :=
  if !cfg.enabled then ⟨0, q, tracking⟩
  else
    let reset := reset_qdrant_collection q
    if !reset.1 then ⟨0, reset.2, tracking⟩
    else
      match reset.2 with
      | none => ⟨0, none, tracking⟩
      | some c0 =>
        let filtered := selected_papers cfg tracking store
        if filtered.isEmpty then ⟨0, some c0, tracking⟩
        else
          let limit := if cfg.papers_per_category > 0 then cfg.papers_per_category
                       else filtered.length
          let papers := (if cfg.sort_by_date then sort_by_published_desc filtered
                         else filtered).take limit
          if papers.isEmpty then ⟨0, some c0, tracking⟩
          else
            let fin := (to_batches cfg.batch_size papers).foldl
              (process_batch h embed) (0, c0, [])
            let tracking1 := if cfg.tracking_enabled && !fin.2.2.isEmpty then
                fin.2.2.foldl apply_track_op tracking
              else tracking
            if cfg.sync_with_qdrant && fin.1 > 0 then
              let after := sync_qdrant_with_tracking cfg.tracking_enabled (some fin.2.1)
                (enumeration_pages (some fin.2.1)) tracking1 store
              ⟨fin.1, after.1, after.2.1⟩
            else ⟨fin.1, some fin.2.1, tracking1⟩

/-- The scalar properties _create_paper sets on a Paper node
(neo4j_sync.py lines 95-112). -/
structure PaperProps where
  title : String
  summary : String
  published : String
  updated : String
  arxiv_url : String
  pdf_url : String
deriving DecidableEq

/-- The properties of a paper document as written by _create_paper. -/
def props_of (p : Paper) : PaperProps :=
  { title := p.title, summary := p.summary, published := p.published,
    updated := p.updated, arxiv_url := p.arxiv_url, pdf_url := p.pdf_url }

/-- A Paper node of the graph: its id key, its scalar properties (none
when the node was created by a relationship MERGE that only sets id),
and the last_synced property set by _mark_paper_synced. -/
structure PaperNode where
  pid : String
  props : Option PaperProps
  last_synced : Option String
deriving DecidableEq

/-- The graph store state.  Nodes and relationships are kept as lists so
that duplicate nodes for one natural key are representable: that MERGE
never creates them is a property to prove, not a modelling assumption.
authored pairs are (author name, paper id); in_category pairs are
(paper id, category name). -/
structure GraphState where
  papers : List PaperNode
  authors : List String
  categories : List String
  authored : List (String × String)
  in_category : List (String × String)
deriving DecidableEq

/-- MERGE (p:Paper {id: pid}) with no SET: matched when a Paper node with
that id exists, otherwise a node carrying only the id is created. -/
def merge_paper_node (g : GraphState) (pid : String) : GraphState :=
  if g.papers.any (fun n => n.pid == pid) then g
  else { g with papers := g.papers ++ [{ pid := pid, props := none, last_synced := none }] }

/-- _create_paper (lines 93-112): MERGE the Paper node by id, then SET
all scalar properties on every matched node (last_synced untouched). -/
def create_paper (g : GraphState) (p : Paper) : GraphState :=
  let g1 := merge_paper_node g p.id
  { g1 with papers := g1.papers.map (fun n =>
      if n.pid == p.id then { n with props := some (props_of p) } else n) }

/-- MERGE (a:Author {name}): created only when absent. -/
def merge_author (g : GraphState) (name : String) : GraphState :=
  if g.authors.contains name then g else { g with authors := g.authors ++ [name] }

/-- MERGE (c:Category {name}): created only when absent. -/
def merge_category (g : GraphState) (name : String) : GraphState :=
  if g.categories.contains name then g else { g with categories := g.categories ++ [name] }

/-- MERGE (a)-[:AUTHORED]->(p): the relationship is created only when no
AUTHORED relationship between the two keyed nodes exists. -/
def merge_authored (g : GraphState) (name pid : String) : GraphState :=
  if g.authored.contains (name, pid) then g
  else { g with authored := g.authored ++ [(name, pid)] }

/-- MERGE (p)-[:IN_CATEGORY]->(c): created only when absent. -/
def merge_in_category (g : GraphState) (pid name : String) : GraphState :=
  if g.in_category.contains (pid, name) then g
  else { g with in_category := g.in_category ++ [(pid, name)] }

/-- One UNWIND row of _create_authors_batch (lines 126-142): MERGE the
Author node, MERGE the Paper node by id, MERGE the AUTHORED edge.  The
row is a (paper_id, author_name) pair as built at line 59. -/
def authors_row (g : GraphState) (row : String × String) : GraphState :=
  merge_authored (merge_paper_node (merge_author g row.2) row.1) row.2 row.1

/-- _create_authors_batch: the UNWIND runs its body once per row. -/
def create_authors_batch (g : GraphState) (rows : List (String × String)) : GraphState :=
  rows.foldl authors_row g

/-- One UNWIND row of _create_categories_batch (lines 156-172). -/
def categories_row (g : GraphState) (row : String × String) : GraphState :=
  merge_in_category (merge_paper_node (merge_category g row.2) row.1) row.1 row.2

/-- _create_categories_batch. -/
def create_categories_batch (g : GraphState) (rows : List (String × String)) : GraphState :=
  rows.foldl categories_row g

/-- _mark_paper_synced (lines 174-189): MATCH the Paper node by id and
SET last_synced; a MATCH creates nothing. -/
def mark_paper_synced (g : GraphState) (pid ts : String) : GraphState :=
  { g with papers := g.papers.map (fun n =>
      if n.pid == pid then { n with last_synced := some ts } else n) }

/-- The three-step write for one paper inside sync_papers_batch (lines
52-71): _create_paper, then _create_authors_batch when the author list
is non-empty, then _create_categories_batch when the category list is
non-empty, then _mark_paper_synced when a sync timestamp was given. -/
def sync_paper_graph (g : GraphState) (p : Paper) (ts : Option String) : GraphState :=
  let g1 := create_paper g p
  let g2 := if p.authors.isEmpty then g1
            else create_authors_batch g1 (p.authors.map (fun a => (p.id, a)))
  let g3 := if p.categories.isEmpty then g2
            else create_categories_batch g2 (p.categories.map (fun c => (p.id, c)))
  match ts with
  | some t => mark_paper_synced g3 p.id t
  | none => g3

/-- The graph effect of syncing a batch when every per-paper write
succeeds: the per-paper writes in order. -/
def sync_batch_graph (g : GraphState) (papers : List Paper) (ts : Option String) : GraphState :=
  papers.foldl (fun h p => sync_paper_graph h p ts) g

/-- What sync_papers_batch returns and leaves behind: the success and
error counts (lines 45-91), the graph state, and the ids logged by the
per-paper exception handler (line 78). -/
structure BatchResult where
  success_count : Nat
  error_count : Nat
  graph : GraphState
  error_log : List String
deriving DecidableEq

/-- The per-paper loop of sync_papers_batch (lines 52-85).  External
failures are injected: `failAt i` says the write_transaction calls for
the paper at index i raise (the inner except at lines 75-81 catches,
logs the paper's id, counts one error and continues; the graph effect of
a partially applied failed paper is not relied on and is modelled as no
effect); `sessionFailAt = some j` says an exception escapes the per-paper
loop just before index j, reaching the outer except at lines 83-85 which
adds `len(papers) - success_count` to the error count.  `n` is the full
batch length used there. -/
def sync_loop (ts : Option String) (failAt : Nat → Bool) (sessionFailAt : Option Nat)
    (n : Nat) : List Paper → Nat → Nat → Nat → GraphState → List String → BatchResult
  | [], _, s, e, g, log => ⟨s, e, g, log⟩
  | p :: rest, idx, s, e, g, log =>
      if sessionFailAt = some idx then ⟨s, e + (n - s), g, log⟩
      else if failAt idx then
        sync_loop ts failAt sessionFailAt n rest (idx + 1) s (e + 1) g (log ++ [p.id])
      else
        sync_loop ts failAt sessionFailAt n rest (idx + 1) (s + 1) e
          (sync_paper_graph g p ts) log

/-- sync_papers_batch (neo4j_sync.py lines 35-91). -/
def sync_papers_batch (papers : List Paper) (ts : Option String) (failAt : Nat → Bool)
    (sessionFailAt : Option Nat) (g : GraphState) : BatchResult :=
  sync_loop ts failAt sessionFailAt papers.length papers 0 0 0 g []

/-- The Paper-node keys of a graph state. -/
def paper_ids (g : GraphState) : List String :=
  g.papers.map (fun n => n.pid)

/-- Natural-key uniqueness of the graph: at most one Paper node per id,
one Author node per name, one Category node per name, and no duplicate
AUTHORED or IN_CATEGORY relationships. -/
def WellFormedGraph (g : GraphState) : Prop :=
  (paper_ids g).Nodup ∧ g.authors.Nodup ∧ g.categories.Nodup ∧
  g.authored.Nodup ∧ g.in_category.Nodup

/-- The last paper of a batch that writes a given Paper key (proof
vocabulary: with repeated ids in one batch, the last occurrence's SET
wins). -/
def last_writer (B : List Paper) (k : String) : Option Paper :=
  (B.filter (fun q => q.id == k)).getLast?

/-- The effect of one paper's SET statements on one stored Paper node
(proof vocabulary): when the keys match, the scalar properties are
overwritten and, when a timestamp is given, last_synced as well; other
nodes are untouched. -/
def paper_write (p : Paper) (ts : Option String) (n : PaperNode) : PaperNode :=
  if n.pid == p.id then
    match ts with
    | some t => { n with props := some (props_of p), last_synced := some t }
    | none => { n with props := some (props_of p) }
  else n

/-- The composed effect of a batch's SET statements on one stored Paper
node, in batch order (proof vocabulary). -/
def batch_write (B : List Paper) (ts : Option String) (n : PaperNode) : PaperNode :=
  match B with
  | [] => n
  | p :: rest => batch_write rest ts (paper_write p ts n)

/-! Concrete fixtures used by the counterexamples and witnesses below. -/

/-- The empty graph store. -/
def empty_graph : GraphState := ⟨[], [], [], [], []⟩

/-- A paper with one author, used by the graph-merge scenario. -/
def paper_x : Paper :=
  ⟨"p", "T", "S", "2024-01-01", "2024-01-01", "http://a", "http://b", ["X"], ["cs.AI"]⟩

/-- The same paper re-ingested with an added co-author Y. -/
def paper_xy : Paper :=
  ⟨"p", "T", "S", "2024-01-01", "2024-01-01", "http://a", "http://b", ["X", "Y"], ["cs.AI"]⟩

/-- A second, distinct paper. -/
def paper_q : Paper :=
  ⟨"q", "T2", "S2", "2024-02-01", "2024-02-01", "", "", ["Y"], ["cs.LG"]⟩

/-- A tracking entry for paper id a. -/
def entry_a : TrackingEntry := ⟨"a", "cs.AI", 5, none, none⟩

/-- A tracking entry for paper id b. -/
def entry_b : TrackingEntry := ⟨"b", "cs.LG", 7, none, none⟩

/-- A scroll trace whose first page holds one point with paper_id a and
whose second scroll call raises a client error while ids a and b are
actually stored downstream. -/
def partial_scroll : List ScrollPage := [Except.ok [some "a"], Except.error ()]

/-- An existing Qdrant collection whose dimension 512 is incompatible
with the configured VECTOR_SIZE = 384. -/
def mismatched_collection : QCollection := { size := 512, distance := "Euclid", points := [] }

/-- The configuration of the replication scenario: paper summaries
enabled, no category or date filter, tracking enabled, sync_with_qdrant
off, batch size 32. -/
def run_cfg : SummariesConfig :=
  { enabled := true, process_categories := [], papers_per_category := 0,
    date_filter_enabled := false, start_date := none, end_date := none,
    sort_by_date := true, tracking_enabled := true, sync_with_qdrant := false,
    batch_size := 32 }

/-- A paper eligible for summary replication. -/
def sample_paper : Paper :=
  ⟨"p1", "Title", "An abstract", "2024-01-02", "", "", "", ["X"], ["cs.AI"]⟩

/-- First process_papers run on a fresh Qdrant and empty tracking, with a
fixed process hash and embedding. -/
def first_run : RunResult :=
  process_papers run_cfg (fun _ => 42) (fun _ => [1, 2]) [sample_paper] none []

/-- Second process_papers run in the same process, with the primary store
unchanged, starting from the state the first run left. -/
def second_run : RunResult :=
  process_papers run_cfg (fun _ => 42) (fun _ => [1, 2]) [sample_paper]
    first_run.qdrant first_run.tracking

/-! ## Theorems -/

/-- Helper: the backfilled tracking document carries the id it was built
for, whatever the primary-store lookup returned. -/
theorem backfill_entry_paper_id (papers : List Paper) (pid : String) :
    (backfill_entry papers pid).paper_id = pid := by
  unfold backfill_entry
  cases papers.find? (fun p => p.id == pid) <;> rfl

/-- C1: the vector point id computed by process_papers is
`int(hash(paper_id) % 10**18)` where `hash` is Python's builtin string
hash, salted with a per-process seed.  Two process instances with
different seeds realise two different hash functions, and the point id
then differs at the very same paper id, so the same PaperRecord.id does
not map to the same VectorPoint.id across processes; stability holds
only within one process (one fixed hash function). -/
theorem point_id_depends_on_process_hash :
    (∃ h₁ h₂ : String → Int, point_id h₁ "2301.00001" ≠ point_id h₂ "2301.00001") ∧
    point_id (fun _ => 0) "2301.00001" = 0 ∧
    point_id (fun _ => 1) "2301.00001" = 1 := by
  refine ⟨⟨fun _ => 0, fun _ => 1, by decide⟩, by decide, by decide⟩

/-- C7 counterexample: an existing collection with dimension 512,
incompatible with VECTOR_SIZE = 384, is silently deleted and replaced by
a fresh empty 384-dimension collection, and reset_qdrant_collection
reports success — no fatal configuration error is raised. -/
theorem reset_replaces_incompatible_collection :
    reset_qdrant_collection (some mismatched_collection) =
      (true, some (create_collection VECTOR_SIZE "Cosine")) ∧
    mismatched_collection.size ≠ VECTOR_SIZE := by
  exact ⟨rfl, by decide⟩

/-- C7 amended: reset_qdrant_collection never inspects an existing
collection's dimension: for every prior state — absent, compatible or
incompatible — it reports success and leaves a fresh empty collection of
the configured VECTOR_SIZE, so an existing collection is always deleted
and recreated (its points discarded), never dimension-checked and never
a fatal error. -/
theorem reset_qdrant_collection_always_recreates (q : Option QCollection) :
    reset_qdrant_collection q = (true, some (create_collection VECTOR_SIZE "Cosine")) := rfl

/-- C10: with tracking disabled, or with the tracking collection
unavailable, is_paper_processed (sync_summary_vectors.py) and
is_pdf_processed (sync_qdrant.py) return False on every input, so every
item of the filtered set is treated as unprocessed and is replicated
again on each run. -/
theorem processed_checks_false_without_tracking :
    (∀ tracking pid category, is_paper_processed false tracking pid category = false) ∧
    (∀ pid category, is_paper_processed true none pid category = false) ∧
    (∀ tracking fp cat, is_pdf_processed false tracking fp cat = false) ∧
    (∀ fp cat, is_pdf_processed true none fp cat = false) := by
  refine ⟨fun _ _ _ => ?_, fun _ _ => ?_, fun _ _ _ => ?_, fun _ _ => ?_⟩ <;>
    simp [is_paper_processed, is_pdf_processed]

/-- C3 counterexample: when the derived store enumerates as empty while
a stale tracking entry for id a exists, sync_qdrant_with_tracking leaves
the tracking collection unchanged, so after the run a has a ledger entry
but is not present in the derived store — the claimed biconditional
fails at x = a. -/
theorem reconciliation_not_biconditional_on_empty_store :
    sync_qdrant_with_tracking true (some (create_collection VECTOR_SIZE "Cosine"))
        [Except.ok []] [entry_a] [] =
      (some (create_collection VECTOR_SIZE "Cosine"), [entry_a], []) ∧
    ¬(∀ x : String,
        x ∈ [entry_a].map (fun e => e.paper_id) ↔ x ∈ ([] : List String)) := by
  refine ⟨by decide, fun H => ?_⟩
  have h := (H "a").mp (by simp [entry_a])
  simp at h

/-- C4 counterexample: the scroll of the derived store fails on its
second page (after one page holding only id a), yet reconciliation is
not skipped: it proceeds with the partial id set and deletes the
tracking entry for b — a failed enumeration that changes the ledger. -/
theorem reconciliation_removes_entries_after_scroll_error :
    (scroll_ids partial_scroll).2 = true ∧
    sync_qdrant_with_tracking true (some (create_collection VECTOR_SIZE "Cosine"))
        partial_scroll [entry_a, entry_b] [] =
      (some (create_collection VECTOR_SIZE "Cosine"), [entry_a], ["a"]) ∧
    ([entry_a] : List TrackingEntry) ≠ [entry_a, entry_b] := by
  refine ⟨rfl, by decide, by decide⟩

/-- Helper: the paper ids of the reconciled tracking collection are the
kept tracked ids followed by the backfilled untracked ids. -/
theorem reconcile_tracking_map_paper_id (tracking : List TrackingEntry) (ids : List String)
    (papers : List Paper) (hne : ids ≠ []) :
    (reconcile_tracking tracking ids papers).map (fun e => e.paper_id) =
      (tracking.filter (fun e => ids.contains e.paper_id)).map (fun e => e.paper_id) ++
      ids.filter (fun pid => !((tracking.map (fun e => e.paper_id)).contains pid)) := by
  unfold reconcile_tracking
  rw [if_neg (by simpa using hne), List.map_append, List.map_map]
  congr 1
  have : ((fun e : TrackingEntry => e.paper_id) ∘ backfill_entry papers) = fun pid => pid := by
    funext pid
    exact backfill_entry_paper_id papers pid
  rw [this, List.map_id']

/-- Helper: membership in the reconciled tracking collection is exactly
membership in the (non-empty) id set read from the derived store. -/
theorem mem_reconcile_tracking (tracking : List TrackingEntry) (ids : List String)
    (papers : List Paper) (hne : ids ≠ []) (x : String) :
    x ∈ (reconcile_tracking tracking ids papers).map (fun e => e.paper_id) ↔ x ∈ ids := by
  rw [reconcile_tracking_map_paper_id tracking ids papers hne]
  simp only [List.mem_append, List.mem_map, List.mem_filter]
  constructor
  · intro h
    rcases h with ⟨e, ⟨_, hc⟩, hex⟩ | ⟨hx, _⟩
    · rw [← hex]; simpa using hc
    · exact hx
  · intro hx
    by_cases hmem : x ∈ tracking.map (fun e => e.paper_id)
    · obtain ⟨e, he, hex⟩ := List.mem_map.mp hmem
      exact Or.inl ⟨e, ⟨he, by rw [hex]; simpa using hx⟩, hex⟩
    · exact Or.inr ⟨hx, by simpa using hmem⟩

/-- C3 amended: when the scroll enumeration completes without error and
observes at least one point, reconciliation makes tracking membership
coincide with the enumerated derived-store id set, and an untracked id
whose primary record is missing is inserted with the sentinel category
"unknown"; when the enumeration observes no points, however, the
tracking collection is left unchanged (so stale entries persist), as the
counterexample above shows. -/
theorem sync_tracking_matches_qdrant_when_nonempty
    (c : QCollection) (pages : List ScrollPage) (tracking : List TrackingEntry)
    (papers : List Paper) (ids : List String)
    (hscroll : scroll_ids pages = (ids, false)) (hne : ids ≠ []) :
    (∀ x, x ∈ (sync_qdrant_with_tracking true (some c) pages tracking papers).2.1.map
        (fun e => e.paper_id) ↔ x ∈ ids) ∧
    (∀ x, x ∈ ids → x ∉ tracking.map (fun e => e.paper_id) →
      papers.find? (fun p => p.id == x) = none →
      ∃ e ∈ (sync_qdrant_with_tracking true (some c) pages tracking papers).2.1,
        e.paper_id = x ∧ e.category = "unknown") := by
  have hres : (sync_qdrant_with_tracking true (some c) pages tracking papers).2.1 =
      reconcile_tracking tracking ids.dedup papers := by
    simp [sync_qdrant_with_tracking, hscroll]
  have hdne : ids.dedup ≠ [] := by simpa using hne
  constructor
  · intro x
    rw [hres, mem_reconcile_tracking tracking ids.dedup papers hdne x, List.mem_dedup]
  · intro x hx hnt hfind
    rw [hres]
    refine ⟨backfill_entry papers x, ?_, backfill_entry_paper_id papers x, ?_⟩
    · unfold reconcile_tracking
      rw [if_neg (by simpa using hdne)]
      simp only [List.mem_append, List.mem_map, List.mem_filter]
      exact Or.inr ⟨x, ⟨by simpa using hx, by simpa using hnt⟩, rfl⟩
    · unfold backfill_entry
      rw [hfind]

/-- Witness for the amended C3 theorem at a concrete input: one point
with id a downstream, empty tracking, empty primary store. -/
theorem sync_tracking_matches_qdrant_when_nonempty_witness :
    (∀ x, x ∈ (sync_qdrant_with_tracking true (some (create_collection VECTOR_SIZE "Cosine"))
        [Except.ok [some "a"]] [] []).2.1.map (fun e => e.paper_id) ↔ x ∈ ["a"]) ∧
    (∀ x, x ∈ ["a"] → x ∉ ([] : List TrackingEntry).map (fun e => e.paper_id) →
      ([] : List Paper).find? (fun p => p.id == x) = none →
      ∃ e ∈ (sync_qdrant_with_tracking true (some (create_collection VECTOR_SIZE "Cosine"))
        [Except.ok [some "a"]] [] []).2.1, e.paper_id = x ∧ e.category = "unknown") :=
  sync_tracking_matches_qdrant_when_nonempty _ _ _ _ ["a"] (by decide) (by decide)

/-- C4 amended: an error while scrolling the derived store skips
reconciliation only when it struck before any point was read — then the
tracking collection is left unchanged; when the error strikes after a
non-empty partial page set, reconciliation proceeds with the partial id
set and every tracking entry whose id was not gathered is removed, even
though it may still be present downstream. -/
theorem reconciliation_after_scroll_error
    (c : QCollection) (pages : List ScrollPage) (tracking : List TrackingEntry)
    (papers : List Paper) :
    (scroll_ids pages = ([], true) →
      (sync_qdrant_with_tracking true (some c) pages tracking papers).2.1 = tracking) ∧
    (∀ ids, scroll_ids pages = (ids, true) → ids ≠ [] →
      ∀ e ∈ tracking, e.paper_id ∉ ids →
        e.paper_id ∉ (sync_qdrant_with_tracking true (some c) pages tracking papers).2.1.map
          (fun e2 => e2.paper_id)) := by
  constructor
  · intro hscroll
    simp [sync_qdrant_with_tracking, hscroll, reconcile_tracking]
  · intro ids hscroll hne e _ hnot hmem
    have hres : (sync_qdrant_with_tracking true (some c) pages tracking papers).2.1 =
        reconcile_tracking tracking ids.dedup papers := by
      simp [sync_qdrant_with_tracking, hscroll]
    rw [hres, mem_reconcile_tracking tracking ids.dedup papers (by simpa using hne),
      List.mem_dedup] at hmem
    exact hnot hmem

/-- C2: with tracking enabled and an unchanged primary store, a second
process_papers run is not idempotent: process_papers first deletes and
recreates the Qdrant collection, then excludes every tracked paper from
the scan, so the second run reports processed = 0 and leaves the
collection holding no points at all, while the first run stored one
point and one tracking entry for the same input — the point set is
destroyed rather than preserved. -/
theorem process_papers_second_run_loses_points :
    first_run.processed = 1 ∧
    first_run.qdrant.map (fun c => c.points.map (fun pt => pt.payload.paper_id)) =
      some ["p1"] ∧
    first_run.tracking.map (fun e => e.paper_id) = ["p1"] ∧
    second_run.processed = 0 ∧
    second_run.qdrant = some (create_collection VECTOR_SIZE "Cosine") ∧
    second_run.tracking = first_run.tracking := by
  exact ⟨rfl, rfl, rfl, rfl, rfl, rfl⟩

/-- C8: when tracking is enabled, the query process_papers issues against
the primary store excludes every paper id present in the tracking
collection — no selected paper is tracked — and conversely every stored
paper that matches the category/date/summary filter and is not tracked
is selected for processing. -/
theorem scan_excludes_tracked_ids
    (cfg : SummariesConfig) (tracking : List TrackingEntry) (store : List Paper)
    (henabled : cfg.tracking_enabled = true) :
    (∀ p ∈ selected_papers cfg tracking store,
      p.id ∉ tracking.map (fun e => e.paper_id)) ∧
    (∀ p ∈ store, matches_base_filter cfg p = true →
      p.id ∉ tracking.map (fun e => e.paper_id) →
      p ∈ selected_papers cfg tracking store) := by
  have htr : tracked_ids cfg tracking = tracking.map (fun e => e.paper_id) := by
    simp [tracked_ids, henabled]
  constructor
  · intro p hp hmem
    rw [selected_papers, List.mem_filter] at hp
    have hq := hp.2
    rw [matches_query, htr, henabled] at hq
    have hemp : (tracking.map (fun e => e.paper_id)).isEmpty = false := by
      cases h : tracking.map (fun e => e.paper_id) with
      | nil => rw [h] at hmem; exact absurd hmem (List.not_mem_nil _)
      | cons a l => rfl
    rw [hemp] at hq
    simp only [Bool.not_false, Bool.and_true, if_true, Bool.and_eq_true,
      Bool.not_eq_true'] at hq
    have hc : p.id ∉ tracking.map (fun e => e.paper_id) := by simpa using hq.2
    exact hc hmem
  · intro p hp hbase hnot
    rw [selected_papers, List.mem_filter]
    refine ⟨hp, ?_⟩
    rw [matches_query, htr, henabled, hbase]
    cases hisempty : (tracking.map (fun e => e.paper_id)).isEmpty with
    | true => simp
    | false =>
        simp only [Bool.not_false, Bool.and_true, if_true, Bool.true_and]
        simp [hnot]

/-- Witness for C8 at a concrete input: tracking holds id a, the store
holds the eligible paper p1. -/
theorem scan_excludes_tracked_ids_witness :
    (∀ p ∈ selected_papers run_cfg [entry_a] [sample_paper],
      p.id ∉ [entry_a].map (fun e => e.paper_id)) ∧
    (∀ p ∈ [sample_paper], matches_base_filter run_cfg p = true →
      p.id ∉ [entry_a].map (fun e => e.paper_id) →
      p ∈ selected_papers run_cfg [entry_a] [sample_paper]) :=
  scan_excludes_tracked_ids run_cfg [entry_a] [sample_paper] rfl

/-! Effect lemmas for the graph-store write primitives: which fields each
Cypher statement touches and how. -/

/-- merge_author leaves every field but authors unchanged. -/
theorem merge_author_eff (g : GraphState) (a : String) :
    (merge_author g a).papers = g.papers ∧
    (merge_author g a).categories = g.categories ∧
    (merge_author g a).authored = g.authored ∧
    (merge_author g a).in_category = g.in_category := by
  unfold merge_author; split <;> exact ⟨rfl, rfl, rfl, rfl⟩

/-- Membership in authors after merge_author. -/
theorem mem_merge_author (g : GraphState) (a x : String) :
    x ∈ (merge_author g a).authors ↔ x ∈ g.authors ∨ x = a := by
  unfold merge_author
  split
  · next hc =>
      constructor
      · exact Or.inl
      · rintro (hx | rfl)
        · exact hx
        · simpa using hc
  · simp

/-- merge_category leaves every field but categories unchanged. -/
theorem merge_category_eff (g : GraphState) (c : String) :
    (merge_category g c).papers = g.papers ∧
    (merge_category g c).authors = g.authors ∧
    (merge_category g c).authored = g.authored ∧
    (merge_category g c).in_category = g.in_category := by
  unfold merge_category; split <;> exact ⟨rfl, rfl, rfl, rfl⟩

/-- Membership in categories after merge_category. -/
theorem mem_merge_category (g : GraphState) (c x : String) :
    x ∈ (merge_category g c).categories ↔ x ∈ g.categories ∨ x = c := by
  unfold merge_category
  split
  · next hc =>
      constructor
      · exact Or.inl
      · rintro (hx | rfl)
        · exact hx
        · simpa using hc
  · simp

/-- merge_authored leaves every field but authored unchanged. -/
theorem merge_authored_eff (g : GraphState) (a pid : String) :
    (merge_authored g a pid).papers = g.papers ∧
    (merge_authored g a pid).authors = g.authors ∧
    (merge_authored g a pid).categories = g.categories ∧
    (merge_authored g a pid).in_category = g.in_category := by
  unfold merge_authored; split <;> exact ⟨rfl, rfl, rfl, rfl⟩

/-- Membership in authored after merge_authored. -/
theorem mem_merge_authored (g : GraphState) (a pid : String) (x : String × String) :
    x ∈ (merge_authored g a pid).authored ↔ x ∈ g.authored ∨ x = (a, pid) := by
  unfold merge_authored
  split
  · next hc =>
      constructor
      · exact Or.inl
      · rintro (hx | rfl)
        · exact hx
        · simpa using hc
  · simp

/-- merge_in_category leaves every field but in_category unchanged. -/
theorem merge_in_category_eff (g : GraphState) (pid c : String) :
    (merge_in_category g pid c).papers = g.papers ∧
    (merge_in_category g pid c).authors = g.authors ∧
    (merge_in_category g pid c).categories = g.categories ∧
    (merge_in_category g pid c).authored = g.authored := by
  unfold merge_in_category; split <;> exact ⟨rfl, rfl, rfl, rfl⟩

/-- Membership in in_category after merge_in_category. -/
theorem mem_merge_in_category (g : GraphState) (pid c : String) (x : String × String) :
    x ∈ (merge_in_category g pid c).in_category ↔ x ∈ g.in_category ∨ x = (pid, c) := by
  unfold merge_in_category
  split
  · next hc =>
      constructor
      · exact Or.inl
      · rintro (hx | rfl)
        · exact hx
        · simpa using hc
  · simp

/-- merge_paper_node leaves every field but papers unchanged. -/
theorem merge_paper_node_eff (g : GraphState) (pid : String) :
    (merge_paper_node g pid).authors = g.authors ∧
    (merge_paper_node g pid).categories = g.categories ∧
    (merge_paper_node g pid).authored = g.authored ∧
    (merge_paper_node g pid).in_category = g.in_category := by
  unfold merge_paper_node; split <;> exact ⟨rfl, rfl, rfl, rfl⟩

/-- A Paper node with the merged id exists if and only if the merge
matched instead of creating. -/
theorem any_pid_iff (g : GraphState) (k : String) :
    g.papers.any (fun n => n.pid == k) = true ↔ k ∈ paper_ids g := by
  simp only [List.any_eq_true, beq_iff_eq, paper_ids, List.mem_map]

/-- merge_paper_node is the identity when the Paper node exists. -/
theorem merge_paper_node_of_mem (g : GraphState) (k : String) (h : k ∈ paper_ids g) :
    merge_paper_node g k = g := by
  unfold merge_paper_node
  rw [if_pos ((any_pid_iff g k).mpr h)]

/-- Paper-node keys after merge_paper_node. -/
theorem mem_paper_ids_merge_paper_node (g : GraphState) (k x : String) :
    x ∈ paper_ids (merge_paper_node g k) ↔ x ∈ paper_ids g ∨ x = k := by
  unfold merge_paper_node
  split
  · next hc =>
      constructor
      · exact Or.inl
      · rintro (hx | rfl)
        · exact hx
        · exact (any_pid_iff g x).mp hc
  · simp [paper_ids]

/-- merge_author is the identity when the Author node exists. -/
theorem merge_author_of_mem (g : GraphState) (a : String) (h : a ∈ g.authors) :
    merge_author g a = g := by
  unfold merge_author
  rw [if_pos (by simpa using h)]

/-- merge_category is the identity when the Category node exists. -/
theorem merge_category_of_mem (g : GraphState) (c : String) (h : c ∈ g.categories) :
    merge_category g c = g := by
  unfold merge_category
  rw [if_pos (by simpa using h)]

/-- merge_authored is the identity when the relationship exists. -/
theorem merge_authored_of_mem (g : GraphState) (a pid : String)
    (h : (a, pid) ∈ g.authored) : merge_authored g a pid = g := by
  unfold merge_authored
  rw [if_pos (by simpa using h)]

/-- merge_in_category is the identity when the relationship exists. -/
theorem merge_in_category_of_mem (g : GraphState) (pid c : String)
    (h : (pid, c) ∈ g.in_category) : merge_in_category g pid c = g := by
  unfold merge_in_category
  rw [if_pos (by simpa using h)]

/-- create_paper leaves every field but papers unchanged. -/
theorem create_paper_eff (g : GraphState) (p : Paper) :
    (create_paper g p).authors = g.authors ∧
    (create_paper g p).categories = g.categories ∧
    (create_paper g p).authored = g.authored ∧
    (create_paper g p).in_category = g.in_category := by
  unfold create_paper
  exact (merge_paper_node_eff g p.id).imp id (fun h => h.imp id (fun h2 => h2.imp id id))

/-- The papers of create_paper are those of the id-merge with the
property SET applied entrywise. -/
theorem create_paper_papers (g : GraphState) (p : Paper) :
    (create_paper g p).papers = (merge_paper_node g p.id).papers.map
      (fun n => if n.pid == p.id then { n with props := some (props_of p) } else n) := rfl

/-- Paper-node keys after create_paper. -/
theorem paper_ids_create_paper (g : GraphState) (p : Paper) :
    paper_ids (create_paper g p) = paper_ids (merge_paper_node g p.id) := by
  rw [paper_ids, create_paper_papers, List.map_map, paper_ids]
  apply List.map_congr_left
  intro n _
  simp only [Function.comp]
  split <;> rfl

/-- Key membership after create_paper. -/
theorem mem_paper_ids_create_paper (g : GraphState) (p : Paper) (x : String) :
    x ∈ paper_ids (create_paper g p) ↔ x ∈ paper_ids g ∨ x = p.id := by
  rw [paper_ids_create_paper, mem_paper_ids_merge_paper_node]

/-- Every paper entry keyed by the created paper's id carries its
properties after create_paper. -/
theorem create_paper_props (g : GraphState) (p : Paper) :
    ∀ n ∈ (create_paper g p).papers, n.pid = p.id → n.props = some (props_of p) := by
  intro n hn hpid
  rw [create_paper_papers] at hn
  obtain ⟨m, _, rfl⟩ := List.mem_map.mp hn
  by_cases h : m.pid = p.id
  · simp [h]
  · rw [if_neg (by simpa using h)] at hpid ⊢
    exact absurd hpid h

/-- Entries keyed by a different id pass through create_paper unchanged. -/
theorem create_paper_other_entries (g : GraphState) (p : Paper) (n : PaperNode)
    (hne : n.pid ≠ p.id) : n ∈ (create_paper g p).papers ↔ n ∈ g.papers := by
  rw [create_paper_papers]
  unfold merge_paper_node
  constructor
  · intro hn
    obtain ⟨m, hm, hfm⟩ := List.mem_map.mp hn
    by_cases h : m.pid = p.id
    · rw [if_pos (by simpa using h)] at hfm
      rw [← hfm] at hne
      exact absurd h hne
    · rw [if_neg (by simpa using h)] at hfm
      subst hfm
      revert hm
      split
      · exact id
      · intro hm
        rcases List.mem_append.mp hm with hm | hm
        · exact hm
        · simp at hm
          rw [hm] at hne
          simp at hne
  · intro hn
    refine List.mem_map.mpr ⟨n, ?_, if_neg (by simpa using hne)⟩
    split
    · exact hn
    · exact List.mem_append.mpr (Or.inl hn)

/-- mark_paper_synced leaves every field but papers unchanged. -/
theorem mark_paper_synced_eff (g : GraphState) (pid t : String) :
    (mark_paper_synced g pid t).authors = g.authors ∧
    (mark_paper_synced g pid t).categories = g.categories ∧
    (mark_paper_synced g pid t).authored = g.authored ∧
    (mark_paper_synced g pid t).in_category = g.in_category :=
  ⟨rfl, rfl, rfl, rfl⟩

/-- Paper-node keys are unchanged by mark_paper_synced. -/
theorem paper_ids_mark_paper_synced (g : GraphState) (pid t : String) :
    paper_ids (mark_paper_synced g pid t) = paper_ids g := by
  unfold mark_paper_synced paper_ids
  rw [List.map_map]
  apply List.map_congr_left
  intro n _
  simp only [Function.comp]
  split <;> rfl

/-- Entries keyed by a different id pass through mark_paper_synced
unchanged. -/
theorem mark_paper_synced_other_entries (g : GraphState) (pid t : String) (n : PaperNode)
    (hne : n.pid ≠ pid) : n ∈ (mark_paper_synced g pid t).papers ↔ n ∈ g.papers := by
  unfold mark_paper_synced
  constructor
  · intro hn
    obtain ⟨m, hm, hfm⟩ := List.mem_map.mp hn
    by_cases h : m.pid = pid
    · rw [if_pos (by simpa using h)] at hfm
      rw [← hfm] at hne
      exact absurd h hne
    · rw [if_neg (by simpa using h)] at hfm
      exact hfm ▸ hm
  · intro hn
    exact List.mem_map.mpr ⟨n, hn, if_neg (by simpa using hne)⟩

/-- Helper: a map whose function fixes every element of the list is the
identity. -/
theorem list_map_self {α : Type} (l : List α) (f : α → α) (h : ∀ x ∈ l, f x = x) :
    l.map f = l := by
  induction l with
  | nil => rfl
  | cons a as ih =>
      rw [List.map_cons, h a (List.mem_cons_self a as),
        ih (fun x hx => h x (List.mem_cons_of_mem a hx))]

/-- mark_paper_synced is the identity when every matched entry already
carries the timestamp. -/
theorem mark_paper_synced_id (g : GraphState) (pid t : String)
    (h : ∀ n ∈ g.papers, n.pid = pid → n.last_synced = some t) :
    mark_paper_synced g pid t = g := by
  unfold mark_paper_synced
  have : g.papers.map (fun n => if n.pid == pid then { n with last_synced := some t }
      else n) = g.papers := by
    apply list_map_self
    intro n hn
    by_cases hp : n.pid = pid
    · rw [if_pos (by simpa using hp), ← h n hn hp]
    · rw [if_neg (by simpa using hp)]
  rw [this]

/-- One author UNWIND row leaves categories and in_category unchanged. -/
theorem authors_row_eff (g : GraphState) (r : String × String) :
    (authors_row g r).categories = g.categories ∧
    (authors_row g r).in_category = g.in_category := by
  unfold authors_row
  have h1 := merge_author_eff g r.2
  have h2 := merge_paper_node_eff (merge_author g r.2) r.1
  have h3 := merge_authored_eff (merge_paper_node (merge_author g r.2) r.1) r.2 r.1
  exact ⟨h3.2.2.1.trans (h2.2.1.trans h1.2.1), h3.2.2.2.trans (h2.2.2.2.trans h1.2.2.2)⟩

/-- Author-node membership after one author row. -/
theorem mem_authors_authors_row (g : GraphState) (r : String × String) (x : String) :
    x ∈ (authors_row g r).authors ↔ x ∈ g.authors ∨ x = r.2 := by
  unfold authors_row
  rw [(merge_authored_eff _ _ _).2.1, (merge_paper_node_eff _ _).1]
  exact mem_merge_author g r.2 x

/-- AUTHORED membership after one author row. -/
theorem mem_authored_authors_row (g : GraphState) (r : String × String)
    (x : String × String) :
    x ∈ (authors_row g r).authored ↔ x ∈ g.authored ∨ x = (r.2, r.1) := by
  unfold authors_row
  rw [mem_merge_authored, (merge_paper_node_eff _ _).2.2.1, (merge_author_eff _ _).2.2.1]

/-- Paper keys after one author row. -/
theorem mem_paper_ids_authors_row (g : GraphState) (r : String × String) (x : String) :
    x ∈ paper_ids (authors_row g r) ↔ x ∈ paper_ids g ∨ x = r.1 := by
  unfold authors_row
  have h3 := (merge_authored_eff (merge_paper_node (merge_author g r.2) r.1) r.2 r.1).1
  rw [paper_ids, h3, ← paper_ids, mem_paper_ids_merge_paper_node,
    paper_ids, (merge_author_eff g r.2).1, ← paper_ids]

/-- One author row leaves the Paper nodes unchanged when the paper
exists. -/
theorem authors_row_papers (g : GraphState) (r : String × String)
    (h : r.1 ∈ paper_ids g) : (authors_row g r).papers = g.papers := by
  unfold authors_row
  have h1 : (merge_author g r.2).papers = g.papers := (merge_author_eff g r.2).1
  have hk : r.1 ∈ paper_ids (merge_author g r.2) := by
    rw [paper_ids, h1, ← paper_ids]; exact h
  rw [merge_paper_node_of_mem _ _ hk, (merge_authored_eff _ _ _).1, h1]

/-- The author batch leaves categories and in_category unchanged. -/
theorem create_authors_batch_eff (g : GraphState) (rows : List (String × String)) :
    (create_authors_batch g rows).categories = g.categories ∧
    (create_authors_batch g rows).in_category = g.in_category := by
  induction rows generalizing g with
  | nil => exact ⟨rfl, rfl⟩
  | cons r rest ih =>
      have hr := authors_row_eff g r
      have hrest := ih (authors_row g r)
      exact ⟨hrest.1.trans hr.1, hrest.2.trans hr.2⟩

/-- Author-node membership after the author batch. -/
theorem mem_authors_create_authors_batch (g : GraphState)
    (rows : List (String × String)) (x : String) :
    x ∈ (create_authors_batch g rows).authors ↔
      x ∈ g.authors ∨ x ∈ rows.map (fun r => r.2) := by
  induction rows generalizing g with
  | nil => simp [create_authors_batch]
  | cons r rest ih =>
      have step : create_authors_batch g (r :: rest) =
          create_authors_batch (authors_row g r) rest := rfl
      rw [step, ih, mem_authors_authors_row]
      simp [or_assoc]

/-- AUTHORED membership after the author batch. -/
theorem mem_authored_create_authors_batch (g : GraphState)
    (rows : List (String × String)) (x : String × String) :
    x ∈ (create_authors_batch g rows).authored ↔
      x ∈ g.authored ∨ x ∈ rows.map (fun r => (r.2, r.1)) := by
  induction rows generalizing g with
  | nil => simp [create_authors_batch]
  | cons r rest ih =>
      have step : create_authors_batch g (r :: rest) =
          create_authors_batch (authors_row g r) rest := rfl
      rw [step, ih, mem_authored_authors_row]
      simp [or_assoc]

/-- Paper keys after the author batch. -/
theorem mem_paper_ids_create_authors_batch (g : GraphState)
    (rows : List (String × String)) (x : String) :
    x ∈ paper_ids (create_authors_batch g rows) ↔
      x ∈ paper_ids g ∨ x ∈ rows.map (fun r => r.1) := by
  induction rows generalizing g with
  | nil => simp [create_authors_batch]
  | cons r rest ih =>
      have step : create_authors_batch g (r :: rest) =
          create_authors_batch (authors_row g r) rest := rfl
      rw [step, ih, mem_paper_ids_authors_row]
      simp [or_assoc]

/-- The author batch leaves the Paper nodes unchanged when every row's
paper exists. -/
theorem create_authors_batch_papers (g : GraphState) (rows : List (String × String))
    (h : ∀ r ∈ rows, r.1 ∈ paper_ids g) :
    (create_authors_batch g rows).papers = g.papers := by
  induction rows generalizing g with
  | nil => rfl
  | cons r rest ih =>
      have hp := authors_row_papers g r (h r (List.mem_cons_self r rest))
      have hrest : ∀ r2 ∈ rest, r2.1 ∈ paper_ids (authors_row g r) := by
        intro r2 hr2
        rw [paper_ids, hp, ← paper_ids]
        exact h r2 (List.mem_cons_of_mem r hr2)
      exact (ih (authors_row g r) hrest).trans hp

/-- The author batch is the identity when every node and relationship it
would merge already exists. -/
theorem create_authors_batch_id (g : GraphState) (rows : List (String × String))
    (h : ∀ r ∈ rows, r.2 ∈ g.authors ∧ (r.2, r.1) ∈ g.authored ∧ r.1 ∈ paper_ids g) :
    create_authors_batch g rows = g := by
  induction rows with
  | nil => rfl
  | cons r rest ih =>
      have hr := h r (List.mem_cons_self r rest)
      have hrow : authors_row g r = g := by
        unfold authors_row
        rw [merge_author_of_mem g r.2 hr.1, merge_paper_node_of_mem g r.1 hr.2.2,
          merge_authored_of_mem g r.2 r.1 hr.2.1]
      have step : create_authors_batch g (r :: rest) =
          create_authors_batch (authors_row g r) rest := rfl
      rw [step, hrow]
      exact ih (fun r2 h2 => h r2 (List.mem_cons_of_mem r h2))

/-- One category UNWIND row leaves authors and authored unchanged. -/
theorem categories_row_eff (g : GraphState) (r : String × String) :
    (categories_row g r).authors = g.authors ∧
    (categories_row g r).authored = g.authored := by
  unfold categories_row
  have h1 := merge_category_eff g r.2
  have h2 := merge_paper_node_eff (merge_category g r.2) r.1
  have h3 := merge_in_category_eff (merge_paper_node (merge_category g r.2) r.1) r.1 r.2
  exact ⟨h3.2.1.trans (h2.1.trans h1.2.1), h3.2.2.2.trans (h2.2.2.1.trans h1.2.2.1)⟩

/-- Category-node membership after one category row. -/
theorem mem_categories_categories_row (g : GraphState) (r : String × String) (x : String) :
    x ∈ (categories_row g r).categories ↔ x ∈ g.categories ∨ x = r.2 := by
  unfold categories_row
  rw [(merge_in_category_eff _ _ _).2.2.1, (merge_paper_node_eff _ _).2.1]
  exact mem_merge_category g r.2 x

/-- IN_CATEGORY membership after one category row. -/
theorem mem_in_category_categories_row (g : GraphState) (r : String × String)
    (x : String × String) :
    x ∈ (categories_row g r).in_category ↔ x ∈ g.in_category ∨ x = (r.1, r.2) := by
  unfold categories_row
  rw [mem_merge_in_category, (merge_paper_node_eff _ _).2.2.2, (merge_category_eff _ _).2.2.2]

/-- Paper keys after one category row. -/
theorem mem_paper_ids_categories_row (g : GraphState) (r : String × String) (x : String) :
    x ∈ paper_ids (categories_row g r) ↔ x ∈ paper_ids g ∨ x = r.1 := by
  unfold categories_row
  have h3 := (merge_in_category_eff (merge_paper_node (merge_category g r.2) r.1) r.1 r.2).1
  rw [paper_ids, h3, ← paper_ids, mem_paper_ids_merge_paper_node,
    paper_ids, (merge_category_eff g r.2).1, ← paper_ids]

/-- One category row leaves the Paper nodes unchanged when the paper
exists. -/
theorem categories_row_papers (g : GraphState) (r : String × String)
    (h : r.1 ∈ paper_ids g) : (categories_row g r).papers = g.papers := by
  unfold categories_row
  have h1 : (merge_category g r.2).papers = g.papers := (merge_category_eff g r.2).1
  have hk : r.1 ∈ paper_ids (merge_category g r.2) := by
    rw [paper_ids, h1, ← paper_ids]; exact h
  rw [merge_paper_node_of_mem _ _ hk, (merge_in_category_eff _ _ _).1, h1]

/-- The category batch leaves authors and authored unchanged. -/
theorem create_categories_batch_eff (g : GraphState) (rows : List (String × String)) :
    (create_categories_batch g rows).authors = g.authors ∧
    (create_categories_batch g rows).authored = g.authored := by
  induction rows generalizing g with
  | nil => exact ⟨rfl, rfl⟩
  | cons r rest ih =>
      have hr := categories_row_eff g r
      have hrest := ih (categories_row g r)
      exact ⟨hrest.1.trans hr.1, hrest.2.trans hr.2⟩

/-- Category-node membership after the category batch. -/
theorem mem_categories_create_categories_batch (g : GraphState)
    (rows : List (String × String)) (x : String) :
    x ∈ (create_categories_batch g rows).categories ↔
      x ∈ g.categories ∨ x ∈ rows.map (fun r => r.2) := by
  induction rows generalizing g with
  | nil => simp [create_categories_batch]
  | cons r rest ih =>
      have step : create_categories_batch g (r :: rest) =
          create_categories_batch (categories_row g r) rest := rfl
      rw [step, ih, mem_categories_categories_row]
      simp [or_assoc]

/-- IN_CATEGORY membership after the category batch. -/
theorem mem_in_category_create_categories_batch (g : GraphState)
    (rows : List (String × String)) (x : String × String) :
    x ∈ (create_categories_batch g rows).in_category ↔
      x ∈ g.in_category ∨ x ∈ rows.map (fun r => (r.1, r.2)) := by
  induction rows generalizing g with
  | nil => simp [create_categories_batch]
  | cons r rest ih =>
      have step : create_categories_batch g (r :: rest) =
          create_categories_batch (categories_row g r) rest := rfl
      rw [step, ih, mem_in_category_categories_row]
      simp [or_assoc]

/-- Paper keys after the category batch. -/
theorem mem_paper_ids_create_categories_batch (g : GraphState)
    (rows : List (String × String)) (x : String) :
    x ∈ paper_ids (create_categories_batch g rows) ↔
      x ∈ paper_ids g ∨ x ∈ rows.map (fun r => r.1) := by
  induction rows generalizing g with
  | nil => simp [create_categories_batch]
  | cons r rest ih =>
      have step : create_categories_batch g (r :: rest) =
          create_categories_batch (categories_row g r) rest := rfl
      rw [step, ih, mem_paper_ids_categories_row]
      simp [or_assoc]

/-- The category batch leaves the Paper nodes unchanged when every row's
paper exists. -/
theorem create_categories_batch_papers (g : GraphState) (rows : List (String × String))
    (h : ∀ r ∈ rows, r.1 ∈ paper_ids g) :
    (create_categories_batch g rows).papers = g.papers := by
  induction rows generalizing g with
  | nil => rfl
  | cons r rest ih =>
      have hp := categories_row_papers g r (h r (List.mem_cons_self r rest))
      have hrest : ∀ r2 ∈ rest, r2.1 ∈ paper_ids (categories_row g r) := by
        intro r2 hr2
        rw [paper_ids, hp, ← paper_ids]
        exact h r2 (List.mem_cons_of_mem r hr2)
      exact (ih (categories_row g r) hrest).trans hp

/-- The category batch is the identity when every node and relationship
it would merge already exists. -/
theorem create_categories_batch_id (g : GraphState) (rows : List (String × String))
    (h : ∀ r ∈ rows, r.2 ∈ g.categories ∧ (r.1, r.2) ∈ g.in_category ∧
      r.1 ∈ paper_ids g) :
    create_categories_batch g rows = g := by
  induction rows with
  | nil => rfl
  | cons r rest ih =>
      have hr := h r (List.mem_cons_self r rest)
      have hrow : categories_row g r = g := by
        unfold categories_row
        rw [merge_category_of_mem g r.2 hr.1, merge_paper_node_of_mem g r.1 hr.2.2,
          merge_in_category_of_mem g r.1 r.2 hr.2.1]
      have step : create_categories_batch g (r :: rest) =
          create_categories_batch (categories_row g r) rest := rfl
      rw [step, hrow]
      exact ih (fun r2 h2 => h r2 (List.mem_cons_of_mem r h2))

/-- The two isEmpty guards of sync_paper_graph are redundant: a batch
over an empty row list is the identity, so the per-paper write always
equals create_paper, then the author batch, then the category batch,
then the optional timestamp mark. -/
theorem sync_paper_graph_norm (g : GraphState) (p : Paper) (ts : Option String) :
    sync_paper_graph g p ts =
      (match ts with
       | some t => mark_paper_synced (create_categories_batch (create_authors_batch
           (create_paper g p) (p.authors.map (fun a => (p.id, a))))
           (p.categories.map (fun c => (p.id, c)))) p.id t
       | none => create_categories_batch (create_authors_batch (create_paper g p)
           (p.authors.map (fun a => (p.id, a))))
           (p.categories.map (fun c => (p.id, c)))) := by
  unfold sync_paper_graph
  by_cases ha : p.authors.isEmpty = true
  · have ha2 := List.isEmpty_iff.mp ha
    by_cases hc : p.categories.isEmpty = true
    · have hc2 := List.isEmpty_iff.mp hc
      simp [ha2, hc2, create_authors_batch, create_categories_batch]
    · simp [ha2, hc, create_authors_batch]
  · by_cases hc : p.categories.isEmpty = true
    · have hc2 := List.isEmpty_iff.mp hc
      simp [ha, hc2, create_categories_batch]
    · simp [ha, hc]

/-- The Paper nodes after the author and category batches of one paper
are exactly those after its create_paper. -/
theorem sync_core_papers (g : GraphState) (p : Paper) :
    (create_categories_batch (create_authors_batch (create_paper g p)
      (p.authors.map (fun a => (p.id, a))))
      (p.categories.map (fun c => (p.id, c)))).papers = (create_paper g p).papers := by
  have hkey : p.id ∈ paper_ids (create_paper g p) :=
    (mem_paper_ids_create_paper g p p.id).mpr (Or.inr rfl)
  have hA : (create_authors_batch (create_paper g p)
      (p.authors.map (fun a => (p.id, a)))).papers = (create_paper g p).papers := by
    apply create_authors_batch_papers
    intro r hr
    obtain ⟨a, _, rfl⟩ := List.mem_map.mp hr
    exact hkey
  have hC := create_categories_batch_papers (create_authors_batch (create_paper g p)
      (p.authors.map (fun a => (p.id, a)))) (p.categories.map (fun c => (p.id, c)))
      (by
        intro r hr
        obtain ⟨c, _, rfl⟩ := List.mem_map.mp hr
        rw [paper_ids, hA, ← paper_ids]
        exact hkey)
  exact hC.trans hA

/-- Paper-key membership after syncing one paper. -/
theorem mem_paper_ids_sync_paper (g : GraphState) (p : Paper) (ts : Option String)
    (x : String) :
    x ∈ paper_ids (sync_paper_graph g p ts) ↔ x ∈ paper_ids g ∨ x = p.id := by
  have hcore : x ∈ paper_ids (create_categories_batch (create_authors_batch
      (create_paper g p) (p.authors.map (fun a => (p.id, a))))
      (p.categories.map (fun c => (p.id, c)))) ↔ x ∈ paper_ids g ∨ x = p.id := by
    rw [paper_ids, sync_core_papers, ← paper_ids, mem_paper_ids_create_paper]
  rw [sync_paper_graph_norm]
  cases ts with
  | none => exact hcore
  | some t => rw [paper_ids_mark_paper_synced]; exact hcore

/-- Author membership after syncing one paper. -/
theorem mem_authors_sync_paper (g : GraphState) (p : Paper) (ts : Option String)
    (x : String) :
    x ∈ (sync_paper_graph g p ts).authors ↔ x ∈ g.authors ∨ x ∈ p.authors := by
  have hcore : x ∈ (create_categories_batch (create_authors_batch
      (create_paper g p) (p.authors.map (fun a => (p.id, a))))
      (p.categories.map (fun c => (p.id, c)))).authors ↔
      x ∈ g.authors ∨ x ∈ p.authors := by
    rw [(create_categories_batch_eff _ _).1, mem_authors_create_authors_batch,
      (create_paper_eff g p).1, List.map_map]
    simp [Function.comp]
  rw [sync_paper_graph_norm]
  cases ts with
  | none => exact hcore
  | some t => rw [(mark_paper_synced_eff _ _ _).1]; exact hcore

/-- AUTHORED membership after syncing one paper. -/
theorem mem_authored_sync_paper (g : GraphState) (p : Paper) (ts : Option String)
    (x : String × String) :
    x ∈ (sync_paper_graph g p ts).authored ↔
      x ∈ g.authored ∨ x ∈ p.authors.map (fun a => (a, p.id)) := by
  have hcore : x ∈ (create_categories_batch (create_authors_batch
      (create_paper g p) (p.authors.map (fun a => (p.id, a))))
      (p.categories.map (fun c => (p.id, c)))).authored ↔
      x ∈ g.authored ∨ x ∈ p.authors.map (fun a => (a, p.id)) := by
    rw [(create_categories_batch_eff _ _).2, mem_authored_create_authors_batch,
      (create_paper_eff g p).2.2.1, List.map_map]
    rfl
  rw [sync_paper_graph_norm]
  cases ts with
  | none => exact hcore
  | some t => rw [(mark_paper_synced_eff _ _ _).2.2.1]; exact hcore

/-- Category membership after syncing one paper. -/
theorem mem_categories_sync_paper (g : GraphState) (p : Paper) (ts : Option String)
    (x : String) :
    x ∈ (sync_paper_graph g p ts).categories ↔ x ∈ g.categories ∨ x ∈ p.categories := by
  have hcore : x ∈ (create_categories_batch (create_authors_batch
      (create_paper g p) (p.authors.map (fun a => (p.id, a))))
      (p.categories.map (fun c => (p.id, c)))).categories ↔
      x ∈ g.categories ∨ x ∈ p.categories := by
    rw [mem_categories_create_categories_batch, (create_authors_batch_eff _ _).1,
      (create_paper_eff g p).2.1, List.map_map]
    simp [Function.comp]
  rw [sync_paper_graph_norm]
  cases ts with
  | none => exact hcore
  | some t => rw [(mark_paper_synced_eff _ _ _).2.1]; exact hcore

/-- IN_CATEGORY membership after syncing one paper. -/
theorem mem_in_category_sync_paper (g : GraphState) (p : Paper) (ts : Option String)
    (x : String × String) :
    x ∈ (sync_paper_graph g p ts).in_category ↔
      x ∈ g.in_category ∨ x ∈ p.categories.map (fun c => (p.id, c)) := by
  have hcore : x ∈ (create_categories_batch (create_authors_batch
      (create_paper g p) (p.authors.map (fun a => (p.id, a))))
      (p.categories.map (fun c => (p.id, c)))).in_category ↔
      x ∈ g.in_category ∨ x ∈ p.categories.map (fun c => (p.id, c)) := by
    rw [mem_in_category_create_categories_batch, (create_authors_batch_eff _ _).2,
      (create_paper_eff g p).2.2.2, List.map_map]
    rfl
  rw [sync_paper_graph_norm]
  cases ts with
  | none => exact hcore
  | some t => rw [(mark_paper_synced_eff _ _ _).2.2.2]; exact hcore

/-- Every entry keyed by the synced paper's id carries its properties
(and the timestamp, when given) after the paper's three-step write. -/
theorem sync_paper_props (g : GraphState) (p : Paper) (ts : Option String) :
    ∀ n ∈ (sync_paper_graph g p ts).papers, n.pid = p.id →
      n.props = some (props_of p) ∧ (∀ t, ts = some t → n.last_synced = some t) := by
  rw [sync_paper_graph_norm]
  cases ts with
  | none =>
      intro n hn hpid
      rw [sync_core_papers] at hn
      exact ⟨create_paper_props g p n hn hpid, fun t ht => by cases ht⟩
  | some t =>
      intro n hn hpid
      unfold mark_paper_synced at hn
      obtain ⟨m, hm, hfm⟩ := List.mem_map.mp hn
      rw [sync_core_papers] at hm
      by_cases h : m.pid = p.id
      · rw [if_pos (by simpa using h)] at hfm
        subst hfm
        exact ⟨create_paper_props g p m hm h, fun t2 ht2 => by cases ht2; rfl⟩
      · rw [if_neg (by simpa using h)] at hfm
        subst hfm
        exact absurd hpid h

/-- Entries keyed by a different paper id pass through the whole
per-paper write unchanged. -/
theorem sync_paper_other_entries (g : GraphState) (p : Paper) (ts : Option String)
    (n : PaperNode) (hne : n.pid ≠ p.id) :
    n ∈ (sync_paper_graph g p ts).papers ↔ n ∈ g.papers := by
  rw [sync_paper_graph_norm]
  cases ts with
  | none =>
      rw [sync_core_papers]
      exact create_paper_other_entries g p n hne
  | some t =>
      rw [mark_paper_synced_other_entries _ p.id t n hne, sync_core_papers]
      exact create_paper_other_entries g p n hne

/-- Helper: appending one fresh element preserves Nodup. -/
theorem nodup_append_singleton {α : Type} (l : List α) (a : α) (h : l.Nodup)
    (ha : a ∉ l) : (l ++ [a]).Nodup := by
  simp [List.nodup_append, h, ha]

/-- merge_paper_node never duplicates a Paper key. -/
theorem nodup_paper_ids_merge_paper_node (g : GraphState) (k : String)
    (h : (paper_ids g).Nodup) : (paper_ids (merge_paper_node g k)).Nodup := by
  unfold merge_paper_node
  split
  · exact h
  · next hc =>
      have hids : paper_ids { g with papers :=
          g.papers ++ [{ pid := k, props := none, last_synced := none }] } =
          paper_ids g ++ [k] := by simp [paper_ids]
      rw [hids]
      exact nodup_append_singleton _ _ h (fun hm => hc ((any_pid_iff g k).mpr hm))

/-- merge_author never duplicates an Author node. -/
theorem nodup_merge_author (g : GraphState) (a : String) (h : g.authors.Nodup) :
    (merge_author g a).authors.Nodup := by
  unfold merge_author
  split
  · exact h
  · next hc => exact nodup_append_singleton _ _ h (by simpa using hc)

/-- merge_category never duplicates a Category node. -/
theorem nodup_merge_category (g : GraphState) (c : String) (h : g.categories.Nodup) :
    (merge_category g c).categories.Nodup := by
  unfold merge_category
  split
  · exact h
  · next hc => exact nodup_append_singleton _ _ h (by simpa using hc)

/-- merge_authored never duplicates an AUTHORED relationship. -/
theorem nodup_merge_authored (g : GraphState) (a pid : String) (h : g.authored.Nodup) :
    (merge_authored g a pid).authored.Nodup := by
  unfold merge_authored
  split
  · exact h
  · next hc => exact nodup_append_singleton _ _ h (by simpa using hc)

/-- merge_in_category never duplicates an IN_CATEGORY relationship. -/
theorem nodup_merge_in_category (g : GraphState) (pid c : String)
    (h : g.in_category.Nodup) : (merge_in_category g pid c).in_category.Nodup := by
  unfold merge_in_category
  split
  · exact h
  · next hc => exact nodup_append_singleton _ _ h (by simpa using hc)

/-- The author batch preserves Author-node uniqueness. -/
theorem nodup_authors_create_authors_batch (g : GraphState)
    (rows : List (String × String)) (h : g.authors.Nodup) :
    (create_authors_batch g rows).authors.Nodup := by
  induction rows generalizing g with
  | nil => exact h
  | cons r rest ih =>
      have hrow : (authors_row g r).authors = (merge_author g r.2).authors := by
        unfold authors_row
        rw [(merge_authored_eff _ _ _).2.1, (merge_paper_node_eff _ _).1]
      exact ih (authors_row g r) (by rw [hrow]; exact nodup_merge_author g r.2 h)

/-- The author batch preserves AUTHORED uniqueness. -/
theorem nodup_authored_create_authors_batch (g : GraphState)
    (rows : List (String × String)) (h : g.authored.Nodup) :
    (create_authors_batch g rows).authored.Nodup := by
  induction rows generalizing g with
  | nil => exact h
  | cons r rest ih =>
      have hprev : (merge_paper_node (merge_author g r.2) r.1).authored = g.authored := by
        rw [(merge_paper_node_eff _ _).2.2.1, (merge_author_eff _ _).2.2.1]
      have hrow : (authors_row g r).authored.Nodup := by
        unfold authors_row
        apply nodup_merge_authored
        rw [hprev]
        exact h
      exact ih (authors_row g r) hrow

/-- The author batch preserves Paper-key uniqueness. -/
theorem nodup_paper_ids_create_authors_batch (g : GraphState)
    (rows : List (String × String)) (h : (paper_ids g).Nodup) :
    (paper_ids (create_authors_batch g rows)).Nodup := by
  induction rows generalizing g with
  | nil => exact h
  | cons r rest ih =>
      have hrow : (paper_ids (authors_row g r)).Nodup := by
        unfold authors_row
        have heq : (merge_authored (merge_paper_node (merge_author g r.2) r.1)
            r.2 r.1).papers = (merge_paper_node (merge_author g r.2) r.1).papers :=
          (merge_authored_eff _ _ _).1
        rw [paper_ids, heq, ← paper_ids]
        apply nodup_paper_ids_merge_paper_node
        rw [paper_ids, (merge_author_eff g r.2).1, ← paper_ids]
        exact h
      exact ih (authors_row g r) hrow

/-- The category batch preserves Category-node uniqueness. -/
theorem nodup_categories_create_categories_batch (g : GraphState)
    (rows : List (String × String)) (h : g.categories.Nodup) :
    (create_categories_batch g rows).categories.Nodup := by
  induction rows generalizing g with
  | nil => exact h
  | cons r rest ih =>
      have hrow : (categories_row g r).categories = (merge_category g r.2).categories := by
        unfold categories_row
        rw [(merge_in_category_eff _ _ _).2.2.1, (merge_paper_node_eff _ _).2.1]
      exact ih (categories_row g r) (by rw [hrow]; exact nodup_merge_category g r.2 h)

/-- The category batch preserves IN_CATEGORY uniqueness. -/
theorem nodup_in_category_create_categories_batch (g : GraphState)
    (rows : List (String × String)) (h : g.in_category.Nodup) :
    (create_categories_batch g rows).in_category.Nodup := by
  induction rows generalizing g with
  | nil => exact h
  | cons r rest ih =>
      have hprev : (merge_paper_node (merge_category g r.2) r.1).in_category =
          g.in_category := by
        rw [(merge_paper_node_eff _ _).2.2.2, (merge_category_eff _ _).2.2.2]
      have hrow : (categories_row g r).in_category.Nodup := by
        unfold categories_row
        apply nodup_merge_in_category
        rw [hprev]
        exact h
      exact ih (categories_row g r) hrow

/-- The category batch preserves Paper-key uniqueness. -/
theorem nodup_paper_ids_create_categories_batch (g : GraphState)
    (rows : List (String × String)) (h : (paper_ids g).Nodup) :
    (paper_ids (create_categories_batch g rows)).Nodup := by
  induction rows generalizing g with
  | nil => exact h
  | cons r rest ih =>
      have hrow : (paper_ids (categories_row g r)).Nodup := by
        unfold categories_row
        have heq : (merge_in_category (merge_paper_node (merge_category g r.2) r.1)
            r.1 r.2).papers = (merge_paper_node (merge_category g r.2) r.1).papers :=
          (merge_in_category_eff _ _ _).1
        rw [paper_ids, heq, ← paper_ids]
        apply nodup_paper_ids_merge_paper_node
        rw [paper_ids, (merge_category_eff g r.2).1, ← paper_ids]
        exact h
      exact ih (categories_row g r) hrow

/-- One per-paper write preserves natural-key uniqueness of the whole
graph. -/
theorem wf_sync_paper (g : GraphState) (p : Paper) (ts : Option String)
    (h : WellFormedGraph g) : WellFormedGraph (sync_paper_graph g p ts) := by
  obtain ⟨hp, ha, hc, hed, hic⟩ := h
  have hcp : (paper_ids (create_paper g p)).Nodup := by
    rw [paper_ids_create_paper]
    exact nodup_paper_ids_merge_paper_node g p.id hp
  rw [sync_paper_graph_norm]
  have hcorep : (paper_ids (create_categories_batch (create_authors_batch
      (create_paper g p) (p.authors.map (fun a => (p.id, a))))
      (p.categories.map (fun c => (p.id, c))))).Nodup :=
    nodup_paper_ids_create_categories_batch _ _
      (nodup_paper_ids_create_authors_batch _ _ hcp)
  have hcorea : (create_categories_batch (create_authors_batch
      (create_paper g p) (p.authors.map (fun a => (p.id, a))))
      (p.categories.map (fun c => (p.id, c)))).authors.Nodup := by
    rw [(create_categories_batch_eff _ _).1]
    apply nodup_authors_create_authors_batch
    rw [(create_paper_eff g p).1]
    exact ha
  have hcorec : (create_categories_batch (create_authors_batch
      (create_paper g p) (p.authors.map (fun a => (p.id, a))))
      (p.categories.map (fun c => (p.id, c)))).categories.Nodup := by
    apply nodup_categories_create_categories_batch
    rw [(create_authors_batch_eff _ _).1, (create_paper_eff g p).2.1]
    exact hc
  have hcoree : (create_categories_batch (create_authors_batch
      (create_paper g p) (p.authors.map (fun a => (p.id, a))))
      (p.categories.map (fun c => (p.id, c)))).authored.Nodup := by
    rw [(create_categories_batch_eff _ _).2]
    apply nodup_authored_create_authors_batch
    rw [(create_paper_eff g p).2.2.1]
    exact hed
  have hcorei : (create_categories_batch (create_authors_batch
      (create_paper g p) (p.authors.map (fun a => (p.id, a))))
      (p.categories.map (fun c => (p.id, c)))).in_category.Nodup := by
    apply nodup_in_category_create_categories_batch
    rw [(create_authors_batch_eff _ _).2, (create_paper_eff g p).2.2.2]
    exact hic
  cases ts with
  | none => exact ⟨hcorep, hcorea, hcorec, hcoree, hcorei⟩
  | some t =>
      refine ⟨?_, ?_, ?_, ?_, ?_⟩
      · rw [paper_ids_mark_paper_synced]; exact hcorep
      · rw [(mark_paper_synced_eff _ _ _).1]; exact hcorea
      · rw [(mark_paper_synced_eff _ _ _).2.1]; exact hcorec
      · rw [(mark_paper_synced_eff _ _ _).2.2.1]; exact hcoree
      · rw [(mark_paper_synced_eff _ _ _).2.2.2]; exact hcorei

/-- A whole batch preserves natural-key uniqueness. -/
theorem wf_sync_batch (g : GraphState) (B : List Paper) (ts : Option String)
    (h : WellFormedGraph g) : WellFormedGraph (sync_batch_graph g B ts) := by
  induction B generalizing g with
  | nil => exact h
  | cons p rest ih => exact ih (sync_paper_graph g p ts) (wf_sync_paper g p ts h)

/-- Helper: one unfolding step of the per-paper loop with no
session-level failure. -/
theorem sync_loop_none_spec (ts : Option String) (failAt : Nat → Bool) (n : Nat) :
    ∀ (l : List Paper) (idx s e : Nat) (g : GraphState) (log : List String),
      sync_loop ts failAt none n l idx s e g log =
        ⟨s + ((List.enumFrom idx l).filter (fun x => !failAt x.1)).length,
         e + ((List.enumFrom idx l).filter (fun x => failAt x.1)).length,
         sync_batch_graph g (((List.enumFrom idx l).filter (fun x => !failAt x.1)).map
           (fun x => x.2)) ts,
         log ++ ((List.enumFrom idx l).filter (fun x => failAt x.1)).map
           (fun x => x.2.id)⟩ := by
  intro l
  induction l with
  | nil => intro idx s e g log; simp [sync_loop, sync_batch_graph]
  | cons p rest ih =>
      intro idx s e g log
      simp only [sync_loop]
      rw [if_neg (by simp : ¬(none : Option Nat) = some idx)]
      have henum : List.enumFrom idx (p :: rest) =
          (idx, p) :: List.enumFrom (idx + 1) rest := rfl
      cases hf : failAt idx with
      | true =>
          rw [if_pos rfl, ih]
          simp only [henum, List.filter_cons, hf, Bool.not_true, if_false,
            List.length_cons, List.map_cons, BatchResult.mk.injEq, if_true]
          refine ⟨rfl, by omega, rfl, by simp⟩
      | false =>
          rw [if_neg (by simp), ih]
          simp only [henum, List.filter_cons, hf, Bool.not_false, if_true, if_false,
            List.length_cons, List.map_cons, BatchResult.mk.injEq]
          refine ⟨by omega, rfl, rfl, rfl⟩

/-- Helper: a Paper key survives any further batch of writes. -/
theorem paper_ids_mono_sync_batch (g : GraphState) (B : List Paper) (ts : Option String)
    (x : String) (h : x ∈ paper_ids g) : x ∈ paper_ids (sync_batch_graph g B ts) := by
  induction B generalizing g with
  | nil => exact h
  | cons q rest ih =>
      exact ih (sync_paper_graph g q ts)
        ((mem_paper_ids_sync_paper g q ts x).mpr (Or.inl h))

/-- Helper: every paper of a batch ends with a Paper node keyed by its
id. -/
theorem mem_paper_ids_sync_batch (g : GraphState) (B : List Paper) (ts : Option String)
    (p : Paper) (hp : p ∈ B) : p.id ∈ paper_ids (sync_batch_graph g B ts) := by
  induction B generalizing g with
  | nil => exact absurd hp (List.not_mem_nil p)
  | cons q rest ih =>
      rcases List.mem_cons.mp hp with rfl | hp2
      · exact paper_ids_mono_sync_batch (sync_paper_graph g p ts) rest ts p.id
          ((mem_paper_ids_sync_paper g p ts p.id).mpr (Or.inr rfl))
      · exact ih (sync_paper_graph g q ts) hp2

/-- Helper: filtering a boolean predicate and its negation partitions a
list's length. -/
theorem length_filter_not_add {α : Type} (l : List α) (f : α → Bool) :
    (l.filter (fun x => !f x)).length + (l.filter f).length = l.length := by
  induction l with
  | nil => rfl
  | cons a as ih =>
      cases h : f a <;> simp [List.filter_cons, h, ← ih] <;> omega

/-- C9: when no session-level exception interrupts the per-paper loop,
sync_papers_batch counts every paper exactly once: success_count plus
error_count equals the batch length.  When a session-level exception
strikes after per-paper errors were counted, the handler at lines 83-85
adds `len(papers) - success_count` on top of the already-counted errors,
so the returned error_count (here 4) exceeds the number of actually
failed papers (here 1 of 3). -/
theorem sync_papers_batch_counts :
    (∀ (papers : List Paper) (ts : Option String) (failAt : Nat → Bool) (g : GraphState),
      (sync_papers_batch papers ts failAt none g).success_count +
        (sync_papers_batch papers ts failAt none g).error_count = papers.length) ∧
    ((sync_papers_batch [paper_x, paper_xy, paper_q] none (fun i => i == 0) (some 1)
        empty_graph).success_count = 0 ∧
     (sync_papers_batch [paper_x, paper_xy, paper_q] none (fun i => i == 0) (some 1)
        empty_graph).error_count = 4 ∧
     ((List.range 3).filter (fun i => i == 0)).length = 1 ∧ (1 : Nat) < 4) := by
  constructor
  · intro papers ts failAt g
    rw [sync_papers_batch, sync_loop_none_spec]
    simp only [Nat.zero_add]
    rw [length_filter_not_add]
    simp
  · exact ⟨by decide, by decide, by decide, by decide⟩

/-- C5: with no session-level failure, the per-paper exception handler
of sync_papers_batch isolates every failing paper: the returned success
count is the number of non-failing papers and the error count the number
of failing ones over the whole batch (so papers after a failure are
still processed), the error log is exactly the ids of the failing papers
in order, and every non-failing paper — including every one following a
failing index — ends with its Paper node written to the graph; the
function returns normally in all cases. -/
theorem sync_papers_batch_isolates_failures
    (papers : List Paper) (ts : Option String) (failAt : Nat → Bool) (g : GraphState) :
    (sync_papers_batch papers ts failAt none g).success_count =
      (papers.enum.filter (fun x => !failAt x.1)).length ∧
    (sync_papers_batch papers ts failAt none g).error_count =
      (papers.enum.filter (fun x => failAt x.1)).length ∧
    (sync_papers_batch papers ts failAt none g).error_log =
      (papers.enum.filter (fun x => failAt x.1)).map (fun x => x.2.id) ∧
    (∀ x ∈ papers.enum, failAt x.1 = false →
      x.2.id ∈ paper_ids (sync_papers_batch papers ts failAt none g).graph) := by
  rw [sync_papers_batch, sync_loop_none_spec]
  refine ⟨by simp [List.enum], by simp [List.enum], by simp [List.enum], ?_⟩
  intro x hx hfx
  apply mem_paper_ids_sync_batch
  refine List.mem_map.mpr ⟨x, ?_, rfl⟩
  rw [List.mem_filter]
  exact ⟨hx, by simp [hfx]⟩

/-- A SET never changes a node's key. -/
theorem paper_write_pid (p : Paper) (ts : Option String) (n : PaperNode) :
    (paper_write p ts n).pid = n.pid := by
  unfold paper_write
  split
  · cases ts <;> rfl
  · rfl

/-- The composed batch write never changes a node's key. -/
theorem batch_write_pid (B : List Paper) (ts : Option String) (n : PaperNode) :
    (batch_write B ts n).pid = n.pid := by
  induction B generalizing n with
  | nil => rfl
  | cons p rest ih =>
      have step : batch_write (p :: rest) ts n =
          batch_write rest ts (paper_write p ts n) := rfl
      rw [step, ih, paper_write_pid]

/-- The last writer of a key after appending one more paper. -/
theorem last_writer_append (B : List Paper) (p : Paper) (k : String) :
    last_writer (B ++ [p]) k = if p.id == k then some p else last_writer B k := by
  unfold last_writer
  rw [List.filter_append]
  by_cases h : p.id == k
  · rw [if_pos h]
    simp only [List.filter, h]
    rw [List.getLast?_append]
    rfl
  · rw [if_neg h]
    simp only [List.filter, h]
    rw [List.append_nil]

/-- The last writer of a key has that key. -/
theorem last_writer_key (B : List Paper) (k : String) (q : Paper)
    (h : last_writer B k = some q) : q.id = k := by
  unfold last_writer at h
  obtain ⟨hne, rfl⟩ := List.mem_getLast?_eq_getLast (show _ ∈ _ from h)
  have hm := List.getLast_mem hne
  rw [List.mem_filter] at hm
  simpa using hm.2

/-- There is no last writer in an empty batch. -/
theorem last_writer_nil (k : String) : last_writer [] k = none := rfl

/-- Appending one paper to a batch write post-composes its SET. -/
theorem batch_write_append (B : List Paper) (p : Paper) (ts : Option String)
    (n : PaperNode) :
    batch_write (B ++ [p]) ts n = paper_write p ts (batch_write B ts n) := by
  induction B generalizing n with
  | nil => rfl
  | cons q rest ih =>
      have step : batch_write ((q :: rest) ++ [p]) ts n =
          batch_write (rest ++ [p]) ts (paper_write q ts n) := rfl
      rw [step, ih]
      rfl

/-- A SET is a no-op on nodes with a different key. -/
theorem paper_write_other (p : Paper) (ts : Option String) (n : PaperNode)
    (h : n.pid ≠ p.id) : paper_write p ts n = n := by
  unfold paper_write
  rw [if_neg (by simpa using h)]

/-- A batch's composed SET effect on one node is its last writer's SET:
earlier writes to the same key are fully overwritten, writes to other
keys never touch the node. -/
theorem batch_write_eq (B : List Paper) (ts : Option String) (n : PaperNode) :
    batch_write B ts n = match last_writer B n.pid with
      | none => n
      | some q => paper_write q ts n := by
  induction B using List.reverseRecOn with
  | nil => rfl
  | append_singleton B p ih =>
      rw [batch_write_append, ih, last_writer_append]
      by_cases hp : p.id == n.pid
      · rw [if_pos hp]
        cases hlw : last_writer B n.pid with
        | none => rfl
        | some q =>
            have hq : q.id = n.pid := last_writer_key B n.pid q hlw
            have hpid : p.id = n.pid := beq_iff_eq.mp hp
            cases ts <;> simp [paper_write, hq, hpid]
      · rw [if_neg hp]
        have hne : n.pid ≠ p.id := by
          intro hcontra
          exact (by simpa using hp : ¬p.id = n.pid) hcontra.symm
        cases hlw : last_writer B n.pid with
        | none => exact paper_write_other p ts n hne
        | some q =>
            exact paper_write_other p ts (paper_write q ts n)
              (by rw [paper_write_pid]; exact hne)

/-- Every author node of every batch paper is present after the batch,
and author nodes only accumulate. -/
theorem authors_mem_sync_batch (g : GraphState) (B : List Paper) (ts : Option String) :
    (∀ x ∈ g.authors, x ∈ (sync_batch_graph g B ts).authors) ∧
    (∀ p ∈ B, ∀ a ∈ p.authors, a ∈ (sync_batch_graph g B ts).authors) := by
  induction B generalizing g with
  | nil => exact ⟨fun x hx => hx, fun p hp => absurd hp (List.not_mem_nil p)⟩
  | cons q rest ih =>
      have ih2 := ih (sync_paper_graph g q ts)
      refine ⟨?_, ?_⟩
      · intro x hx
        exact ih2.1 x ((mem_authors_sync_paper g q ts x).mpr (Or.inl hx))
      · intro p hp a ha
        rcases List.mem_cons.mp hp with rfl | hp2
        · exact ih2.1 a ((mem_authors_sync_paper g p ts a).mpr (Or.inr ha))
        · exact ih2.2 p hp2 a ha

/-- Every AUTHORED relationship of every batch paper is present after
the batch, and relationships only accumulate. -/
theorem authored_mem_sync_batch (g : GraphState) (B : List Paper) (ts : Option String) :
    (∀ x ∈ g.authored, x ∈ (sync_batch_graph g B ts).authored) ∧
    (∀ p ∈ B, ∀ a ∈ p.authors, (a, p.id) ∈ (sync_batch_graph g B ts).authored) := by
  induction B generalizing g with
  | nil => exact ⟨fun x hx => hx, fun p hp => absurd hp (List.not_mem_nil p)⟩
  | cons q rest ih =>
      have ih2 := ih (sync_paper_graph g q ts)
      refine ⟨?_, ?_⟩
      · intro x hx
        exact ih2.1 x ((mem_authored_sync_paper g q ts x).mpr (Or.inl hx))
      · intro p hp a ha
        rcases List.mem_cons.mp hp with rfl | hp2
        · exact ih2.1 (a, p.id) ((mem_authored_sync_paper g p ts (a, p.id)).mpr
            (Or.inr (List.mem_map.mpr ⟨a, ha, rfl⟩)))
        · exact ih2.2 p hp2 a ha

/-- Every Category node of every batch paper is present after the batch. -/
theorem categories_mem_sync_batch (g : GraphState) (B : List Paper) (ts : Option String) :
    (∀ x ∈ g.categories, x ∈ (sync_batch_graph g B ts).categories) ∧
    (∀ p ∈ B, ∀ c ∈ p.categories, c ∈ (sync_batch_graph g B ts).categories) := by
  induction B generalizing g with
  | nil => exact ⟨fun x hx => hx, fun p hp => absurd hp (List.not_mem_nil p)⟩
  | cons q rest ih =>
      have ih2 := ih (sync_paper_graph g q ts)
      refine ⟨?_, ?_⟩
      · intro x hx
        exact ih2.1 x ((mem_categories_sync_paper g q ts x).mpr (Or.inl hx))
      · intro p hp c hc
        rcases List.mem_cons.mp hp with rfl | hp2
        · exact ih2.1 c ((mem_categories_sync_paper g p ts c).mpr (Or.inr hc))
        · exact ih2.2 p hp2 c hc

/-- Every IN_CATEGORY relationship of every batch paper is present after
the batch. -/
theorem in_category_mem_sync_batch (g : GraphState) (B : List Paper)
    (ts : Option String) :
    (∀ x ∈ g.in_category, x ∈ (sync_batch_graph g B ts).in_category) ∧
    (∀ p ∈ B, ∀ c ∈ p.categories, (p.id, c) ∈ (sync_batch_graph g B ts).in_category) := by
  induction B generalizing g with
  | nil => exact ⟨fun x hx => hx, fun p hp => absurd hp (List.not_mem_nil p)⟩
  | cons q rest ih =>
      have ih2 := ih (sync_paper_graph g q ts)
      refine ⟨?_, ?_⟩
      · intro x hx
        exact ih2.1 x ((mem_in_category_sync_paper g q ts x).mpr (Or.inl hx))
      · intro p hp c hc
        rcases List.mem_cons.mp hp with rfl | hp2
        · exact ih2.1 (p.id, c) ((mem_in_category_sync_paper g p ts (p.id, c)).mpr
            (Or.inr (List.mem_map.mpr ⟨c, hc, rfl⟩)))
        · exact ih2.2 p hp2 c hc

/-- On a graph that already holds the paper's node, all its author and
category nodes and all its relationships, the per-paper write reduces to
the entrywise SET of its properties (and timestamp): every MERGE
matches. -/
theorem sync_paper_static (h : GraphState) (p : Paper) (ts : Option String)
    (hkey : p.id ∈ paper_ids h)
    (hauth : ∀ a ∈ p.authors, a ∈ h.authors)
    (hed : ∀ a ∈ p.authors, (a, p.id) ∈ h.authored)
    (hcat : ∀ c ∈ p.categories, c ∈ h.categories)
    (hic : ∀ c ∈ p.categories, (p.id, c) ∈ h.in_category) :
    sync_paper_graph h p ts = { h with papers := h.papers.map (paper_write p ts) } := by
  have hcp : create_paper h p = { h with papers := h.papers.map (fun n =>
      if n.pid == p.id then { n with props := some (props_of p) } else n) } := by
    unfold create_paper
    rw [merge_paper_node_of_mem h p.id hkey]
  have hkey2 : p.id ∈ paper_ids (create_paper h p) :=
    (mem_paper_ids_create_paper h p p.id).mpr (Or.inr rfl)
  have hab : create_authors_batch (create_paper h p)
      (p.authors.map (fun a => (p.id, a))) = create_paper h p := by
    apply create_authors_batch_id
    intro r hr
    obtain ⟨a, ha, rfl⟩ := List.mem_map.mp hr
    refine ⟨?_, ?_, hkey2⟩
    · rw [(create_paper_eff h p).1]; exact hauth a ha
    · rw [(create_paper_eff h p).2.2.1]; exact hed a ha
  have hcb : create_categories_batch (create_paper h p)
      (p.categories.map (fun c => (p.id, c))) = create_paper h p := by
    apply create_categories_batch_id
    intro r hr
    obtain ⟨c, hc, rfl⟩ := List.mem_map.mp hr
    refine ⟨?_, ?_, hkey2⟩
    · rw [(create_paper_eff h p).2.1]; exact hcat c hc
    · rw [(create_paper_eff h p).2.2.2]; exact hic c hc
  rw [sync_paper_graph_norm]
  cases ts with
  | none =>
      rw [hab, hcb, hcp]
      congr 1
  | some t =>
      rw [hab, hcb, hcp]
      unfold mark_paper_synced
      dsimp only
      congr 1
      rw [List.map_map]
      apply List.map_congr_left
      intro n _
      by_cases hn : n.pid = p.id <;> simp [paper_write, Function.comp, hn]

/-- With every batch paper's static graph content already present, the
batch is the entrywise composed SET of its papers' properties. -/
theorem sync_batch_of_static (h : GraphState) (B : List Paper) (ts : Option String)
    (hstat : ∀ p ∈ B, p.id ∈ paper_ids h ∧ (∀ a ∈ p.authors, a ∈ h.authors) ∧
      (∀ a ∈ p.authors, (a, p.id) ∈ h.authored) ∧
      (∀ c ∈ p.categories, c ∈ h.categories) ∧
      (∀ c ∈ p.categories, (p.id, c) ∈ h.in_category)) :
    sync_batch_graph h B ts = { h with papers := h.papers.map (batch_write B ts) } := by
  induction B generalizing h with
  | nil =>
      have : h.papers.map (batch_write [] ts) = h.papers :=
        list_map_self _ _ (fun n _ => rfl)
      rw [sync_batch_graph]
      simp only [List.foldl_nil]
      rw [this]
  | cons p rest ih =>
      have hp := hstat p (List.mem_cons_self p rest)
      have hsp := sync_paper_static h p ts hp.1 hp.2.1 hp.2.2.1 hp.2.2.2.1 hp.2.2.2.2
      have step : sync_batch_graph h (p :: rest) ts =
          sync_batch_graph (sync_paper_graph h p ts) rest ts := rfl
      have hids : paper_ids (sync_paper_graph h p ts) = paper_ids h := by
        rw [hsp]
        unfold paper_ids
        dsimp only
        rw [List.map_map]
        exact List.map_congr_left (fun n _ => paper_write_pid p ts n)
      have hstat2 : ∀ q ∈ rest, q.id ∈ paper_ids (sync_paper_graph h p ts) ∧
          (∀ a ∈ q.authors, a ∈ (sync_paper_graph h p ts).authors) ∧
          (∀ a ∈ q.authors, (a, q.id) ∈ (sync_paper_graph h p ts).authored) ∧
          (∀ c ∈ q.categories, c ∈ (sync_paper_graph h p ts).categories) ∧
          (∀ c ∈ q.categories, (q.id, c) ∈ (sync_paper_graph h p ts).in_category) := by
        intro q hq
        have hq2 := hstat q (List.mem_cons_of_mem p hq)
        refine ⟨by rw [hids]; exact hq2.1, ?_, ?_, ?_, ?_⟩ <;> rw [hsp]
        · exact hq2.2.1
        · exact hq2.2.2.1
        · exact hq2.2.2.2.1
        · exact hq2.2.2.2.2
      rw [step, ih _ hstat2, hsp]
      dsimp only
      rw [List.map_map]
      rfl

/-- After a batch, every stored Paper node keyed by some batch paper's
id carries the properties of the key's last writer (and the timestamp,
when given) — no uniqueness assumption on the batch's ids. -/
theorem sync_batch_props_last (g : GraphState) (B : List Paper) (ts : Option String) :
    ∀ n ∈ (sync_batch_graph g B ts).papers, ∀ q, last_writer B n.pid = some q →
      n.props = some (props_of q) ∧ (∀ t, ts = some t → n.last_synced = some t) := by
  induction B using List.reverseRecOn with
  | nil =>
      intro n _ q hq
      rw [last_writer_nil] at hq
      cases hq
  | append_singleton B p ih =>
      intro n hn q hq
      have hfold : sync_batch_graph g (B ++ [p]) ts =
          sync_paper_graph (sync_batch_graph g B ts) p ts := by
        unfold sync_batch_graph
        rw [List.foldl_append]
        rfl
      rw [hfold] at hn
      rw [last_writer_append] at hq
      by_cases hpk : p.id == n.pid
      · rw [if_pos hpk] at hq
        cases hq
        exact sync_paper_props (sync_batch_graph g B ts) p ts n hn
          (beq_iff_eq.mp hpk).symm
      · rw [if_neg hpk] at hq
        have hne : n.pid ≠ p.id := by
          intro hcontra
          exact (by simpa using hpk : ¬p.id = n.pid) hcontra.symm
        exact ih n ((sync_paper_other_entries _ p ts n hne).mp hn) q hq

/-- Replaying any batch — repeated ids allowed — on the state it
produced changes nothing: every MERGE matches, and every SET rewrites
the value the last writer of that key already left. -/
theorem sync_batch_graph_replay (g : GraphState) (B : List Paper) (ts : Option String) :
    sync_batch_graph (sync_batch_graph g B ts) B ts = sync_batch_graph g B ts := by
  have hstat : ∀ p ∈ B, p.id ∈ paper_ids (sync_batch_graph g B ts) ∧
      (∀ a ∈ p.authors, a ∈ (sync_batch_graph g B ts).authors) ∧
      (∀ a ∈ p.authors, (a, p.id) ∈ (sync_batch_graph g B ts).authored) ∧
      (∀ c ∈ p.categories, c ∈ (sync_batch_graph g B ts).categories) ∧
      (∀ c ∈ p.categories, (p.id, c) ∈ (sync_batch_graph g B ts).in_category) := by
    intro p hp
    exact ⟨mem_paper_ids_sync_batch g B ts p hp,
      fun a ha => (authors_mem_sync_batch g B ts).2 p hp a ha,
      fun a ha => (authored_mem_sync_batch g B ts).2 p hp a ha,
      fun c hc => (categories_mem_sync_batch g B ts).2 p hp c hc,
      fun c hc => (in_category_mem_sync_batch g B ts).2 p hp c hc⟩
  rw [sync_batch_of_static _ B ts hstat]
  have hfix : (sync_batch_graph g B ts).papers.map (batch_write B ts) =
      (sync_batch_graph g B ts).papers := by
    apply list_map_self
    intro n hn
    rw [batch_write_eq]
    cases hlw : last_writer B n.pid with
    | none => rfl
    | some q =>
        have hq : q.id = n.pid := last_writer_key B n.pid q hlw
        have hprops := sync_batch_props_last g B ts n hn q hlw
        show paper_write q ts n = n
        unfold paper_write
        rw [if_pos (by simp [hq])]
        cases ts with
        | none => rw [← hprops.1]
        | some t =>
            rw [← hprops.1]
            have hl := hprops.2 t rfl
            calc ({ pid := n.pid, props := n.props, last_synced := some t } : PaperNode)
                = { pid := n.pid, props := n.props, last_synced := n.last_synced } := by
                  rw [hl]
              _ = n := rfl
  rw [hfix]

/-- C6: graph replication is idempotent.  Conjuncts: (1) for any batch,
running sync_papers_batch's per-paper writes a second time reproduces
exactly the final graph state of the first run; (2) the writes preserve
natural-key uniqueness — at most one Paper node per id, one Author node
per name, one Category node per name, and no duplicate AUTHORED or
IN_CATEGORY relationship; (3)-(6) the co-author scenario: re-syncing
paper p with an added co-author Y leaves exactly one Paper node, keeps
the original AUTHORED edge ("X", "p") first and unchanged, and adds
exactly one new Author node Y with exactly one new AUTHORED edge —
never a second Paper node. -/
theorem graph_replication_idempotent :
    (∀ (g : GraphState) (B : List Paper) (ts : Option String),
      sync_batch_graph (sync_batch_graph g B ts) B ts = sync_batch_graph g B ts) ∧
    (∀ (g : GraphState) (B : List Paper) (ts : Option String),
      WellFormedGraph g → WellFormedGraph (sync_batch_graph g B ts)) ∧
    (sync_batch_graph (sync_batch_graph empty_graph [paper_x] none)
      [paper_xy] none).papers.length = 1 ∧
    (sync_batch_graph empty_graph [paper_x] none).authored = [("X", "p")] ∧
    (sync_batch_graph (sync_batch_graph empty_graph [paper_x] none)
      [paper_xy] none).authors = ["X", "Y"] ∧
    (sync_batch_graph (sync_batch_graph empty_graph [paper_x] none)
      [paper_xy] none).authored = [("X", "p"), ("Y", "p")] := by
  refine ⟨sync_batch_graph_replay, wf_sync_batch, ?_, ?_, ?_, ?_⟩ <;> decide

end ArxivPipeline
